import Mathlib

/-!
# Verification of the rig replicated commit-log (Preetam/rig)

Shallow embedding of the replication core of the `rig` package:

* the `Log` wrapper over the on-disk commit log (`log.go`, `src/unnamed/part_002`
  lines 18-364),
* the `Doer` write path `Do`, startup reconciliation `NewDoer`, the HTTP
  handler default, and the background peer-sync loop body
  (`doer.go`, `src/unnamed/part_002` lines 731-1037).

The underlying `lm2log` LogStore is vendored in the repository only as a test
file, so its semantics are modelled from the spec (each such definition carries
a `Modelled from the spec:` doc comment).  JSON framing of operations is
modelled as the identity on the decoded value (`json.Marshal` of an operation
record cannot fail and `Unmarshal ∘ Marshal` is the identity for this struct),
and lm2log-level I/O failures are not modelled.  Network interaction with the
peer is modelled by a fault-injection stream: each peer RPC consumes one token;
an injected fault means the request never reached the peer.
-/

/-- An application operation: a routing method plus an opaque data blob
(`client.Operation`, `src/unnamed/part_001`). -/
structure Operation where
  method : String
  data : String
deriving DecidableEq, Repr

/-- The unit transferred over the wire and stored in the log
(`client.LogPayload`). -/
structure LogPayload where
  version : Nat
  op : Operation
deriving DecidableEq, Repr

/-- `LogError` from `log.go` lines 18-25: an error type tag, an HTTP status
code, and an optional underlying error (`Err error`, which may be nil). -/
structure LogError where
  errType : String
  statusCode : Nat
  err : Option String
deriving DecidableEq, Repr

/-- The behaviour of the user-supplied `Service` (`log.go` lines 31-36).
`validateOk op` tells whether `Validate(op)` returns nil; `applyOk v op`
whether `Apply(v, op)` returns nil; `lockOk op` is `LockResources(op)`. -/
structure Service where
  validateOk : Operation → Bool
  applyOk : Nat → Operation → Bool
  lockOk : Operation → Bool

/-- Modelled from the spec: the state of the external lm2log LogStore
(spec §3): numbered records, the highest committed version (0 meaning
nothing committed), and the optional outstanding prepared version.  The
lm2log implementation is vendored in this repository only as its test file,
so the store is modelled from spec §3 and the vendored tests. -/
structure LogStore where
  records : List (Nat × Operation)
  committed : Nat
  prepared : Option Nat
deriving DecidableEq, Repr

namespace LogStore

/-- Modelled from the spec: `Get(v)` returns the record at version `v` or
not-found. -/
def get (s : LogStore) (v : Nat) : Option Operation :=
  (s.records.find? (fun r => r.1 = v)).map (fun r => r.2)

/-- Insert (overwriting) a record at version `v`. -/
def setRecord (s : LogStore) (v : Nat) (op : Operation) : List (Nat × Operation) :=
  (v, op) :: s.records.filter (fun r => r.1 ≠ v)

/-- Modelled from the spec: `Prepare(data)` requires no current prepared
record (spec §3); it stores the record at version `committed + 1` and marks
that version prepared.  Returns `none` (an error) when a prepared record
already exists. -/
def prepare (s : LogStore) (op : Operation) : Option LogStore :=
  match s.prepared with
  | some _ => none
  | none =>
      some { records := s.setRecord (s.committed + 1) op
             committed := s.committed
             prepared := some (s.committed + 1) }

/-- Modelled from the spec: `Commit()` promotes the prepared record to
committed and clears it; with no prepared record it is a no-op (spec §4.3
step 7 relies on this). -/
def commit (s : LogStore) : LogStore :=
  match s.prepared with
  | none => s
  | some v => { s with committed := v, prepared := none }

/-- Modelled from the spec: `Rollback()` clears the prepared record and
deletes its stored record; with no prepared record it is a no-op (spec §8
law "Rollback idempotence", vendored test `TestPrepareCommit`). -/
def rollback (s : LogStore) : LogStore :=
  match s.prepared with
  | none => s
  | some v =>
      { records := s.records.filter (fun r => r.1 ≠ v)
        committed := s.committed
        prepared := none }

/-- Modelled from the spec: `Compact(keep)` truncates records with
`version ≤ committed − keep` (glossary "Compaction"). -/
def compact (s : LogStore) (keep : Nat) : LogStore :=
  { s with records := s.records.filter (fun r => s.committed < r.1 + keep) }

/-- The prepared-version sanity invariant of the store: a prepared record,
when present, has version exactly `committed + 1`. -/
def wf (s : LogStore) : Bool :=
  match s.prepared with
  | none => true
  | some v => v = s.committed + 1

end LogStore

/-- The rig commit log (`log.go` lines 39-49): the bound service, the
`applyCommits` flag, and the underlying store.  The Go mutex serializes the
methods; the embedding is sequential, so the mutex has no counterpart. -/
structure Log where
  service : Service
  applyCommits : Bool
  store : LogStore

/-- Result of an operation that may change the log and report an error while
keeping the (possibly changed) state. -/
structure LogRes where
  log : Log
  err : Option LogError

/-- Observable events of a run: local `service.Apply` invocations, peer RPC
attempts with their outcome, and local commit-log operations with their
outcome. -/
inductive RpcKind where
  | committedK | preparedK | prepareK | commitK | rollbackK | getRecordK
deriving DecidableEq, Repr

/-- Kinds of local commit-log operations recorded in traces. -/
inductive LocKind where
  | committedK | preparedK | recordK | prepareK | commitK | rollbackK
deriving DecidableEq, Repr

/-- Outcome of an RPC or a local commit-log operation. -/
inductive Outcome where
  | ok | notFound | fail
deriving DecidableEq, Repr

/-- Trace events. -/
inductive Ev where
  | applyEv (v : Nat) (op : Operation)
  | rpcEv (k : RpcKind) (o : Outcome)
  | locEv (k : LocKind) (o : Outcome)
deriving DecidableEq, Repr

/-- A trace is a list of events in the order they occurred. -/
abbrev Trace := List Ev

namespace Ev

/-- Event is a local `service.Apply` invocation. -/
def isApply : Ev → Bool
  | .applyEv _ _ => true
  | _ => false

/-- Event is a failed peer RPC. -/
def isRpcFail : Ev → Bool
  | .rpcEv _ .fail => true
  | _ => false

/-- Event is a failed local commit-log operation. -/
def isLocFail : Ev → Bool
  | .locEv _ .fail => true
  | _ => false

/-- Event is a failed peer `GetRecord` RPC. -/
def isGetRecFail : Ev → Bool
  | .rpcEv .getRecordK .fail => true
  | _ => false

/-- Event is any failure (RPC or local). -/
def isFailEv (e : Ev) : Bool := e.isRpcFail || e.isLocFail

/-- Event is a peer `Prepare` RPC attempt (successful or not). -/
def isPrepAttempt : Ev → Bool
  | .rpcEv .prepareK _ => true
  | _ => false

/-- Event is a peer `Commit` RPC attempt (successful or not). -/
def isCommitAttempt : Ev → Bool
  | .rpcEv .commitK _ => true
  | _ => false

end Ev

namespace Log

/-- `Log.Prepared` (`log.go` lines 74-121): the outstanding prepared record,
404 with the lm2log not-found error if none. -/
def Prepared (l : Log) : Except LogError LogPayload :=
  match l.store.prepared with
  | none => .error ⟨"internal", 404, some "lm2log: not found"⟩
  | some v =>
      match l.store.get v with
      | none => .error ⟨"internal", 500, some "get failed"⟩
      | some op => .ok ⟨v, op⟩

/-- `Log.Committed` (`log.go` lines 123-171): the highest committed record;
when the committed version is 0 it fails with a 404 `LogError` whose
underlying `Err` is nil. -/
def Committed (l : Log) : Except LogError LogPayload :=
  if l.store.committed = 0 then .error ⟨"internal", 404, none⟩
  else
    match l.store.get l.store.committed with
    | none => .error ⟨"internal", 500, some "get failed"⟩
    | some op => .ok ⟨l.store.committed, op⟩

/-- `Log.Prepare` (`log.go` lines 173-221): version check, then
`service.Validate`, then the store write.  Failure branches return before
the store is touched, so the state is unchanged there. -/
def Prepare (l : Log) (payload : LogPayload) : LogRes :=
  if payload.version ≠ l.store.committed + 1 then
    ⟨l, some ⟨"internal", 400, some "preparing invalid version"⟩⟩
  else if ¬ l.service.validateOk payload.op then
    ⟨l, some ⟨"internal", 400, some "invalid operation"⟩⟩
  else
    match l.store.prepare payload.op with
    | none => ⟨l, some ⟨"internal", 500, some "prepare failed"⟩⟩
    | some s => ⟨{ l with store := s }, none⟩

/-- Result of `Log.Commit`: the new log, the `Apply` invocations made, and
the error if any (the store commit takes effect even when `Apply` fails). -/
structure CommitRes where
  log : Log
  evs : Trace
  err : Option LogError

/-- `Log.Commit` (`log.go` lines 223-278): commit the store, then — if the
committed version is nonzero — fetch the committed record and invoke
`service.Apply` on it.  NOTE: faithful to the source, the `applyCommits`
flag is never consulted (the field is documented at lines 42-44 as
controlling this, but lines 223-278 never read it). -/
def Commit (l : Log) : CommitRes :=
  let s := l.store.commit
  let l1 : Log := { l with store := s }
  if s.committed = 0 then ⟨l1, [], none⟩
  else
    match s.get s.committed with
    | none => ⟨l1, [], some ⟨"internal", 500, some "get failed"⟩⟩
    | some op =>
        if l.service.applyOk s.committed op then
          ⟨l1, [.applyEv s.committed op], none⟩
        else
          ⟨l1, [.applyEv s.committed op], some ⟨"internal", 500, some "apply failed"⟩⟩

/-- `Log.Rollback` (`log.go` lines 280-294): clear any prepared record.  The
modelled store rollback is total, so the error is always `none` (the Go
error branch covers lm2log I/O failures, which are not modelled). -/
def Rollback (l : Log) : LogRes :=
  ⟨{ l with store := l.store.rollback }, none⟩

/-- `Log.Record` (`log.go` lines 296-327): fetch a historical record. -/
def Record (l : Log) (v : Nat) : Except LogError LogPayload :=
  match l.store.get v with
  | none => .error ⟨"internal", 500, some "get failed"⟩
  | some op => .ok ⟨v, op⟩

/-- `Log.LockResources` (`log.go` lines 329-342): 503 when the service
refuses the resources. -/
def LockResources (l : Log) (o : Operation) : Option LogError :=
  if l.service.lockOk o then none
  else some ⟨"internal", 503, some "resource busy"⟩

/-- `Log.Compact` (`log.go` lines 351-364). -/
def Compact (l : Log) (keep : Nat) : Log :=
  { l with store := l.store.compact keep }

end Log

/-- The public CommitLog operations of claim C7 (`Prepare`, `Commit`,
`Rollback`, `Compact`). -/
inductive LogOp where
  | prepareOp (p : LogPayload)
  | commitOp
  | rollbackOp
  | compactOp (k : Nat)

/-- Execute one public operation; a failed operation leaves the state it
reports (for `Prepare` the unchanged one). -/
def applyLogOp (l : Log) : LogOp → Log
  | .prepareOp p => (l.Prepare p).log
  | .commitOp => (l.Commit).log
  | .rollbackOp => (l.Rollback).log
  | .compactOp k => l.Compact k

/-- Run a sequence of public operations. -/
def runOps (l : Log) : List LogOp → Log
  | [] => l
  | o :: rest => runOps (applyLogOp l o) rest

/-- A fresh, empty commit log. -/
def emptyLog (svc : Service) (ac : Bool) : Log :=
  ⟨svc, ac, ⟨[], 0, none⟩⟩

/-- The world visible to a `Doer`: the local commit log, the optional peer's
commit log (the peer is configured iff this is `some`), and the schedule of
network faults: each peer RPC consumes one token, and a `true` token means
the request never reached the peer.  An exhausted schedule means no further
faults. -/
structure World where
  loc : Log
  peerLog : Option Log
  faults : List Bool

/-- The next fault token (no fault once the schedule is exhausted). -/
def World.nextFault (w : World) : Bool := w.faults.headD false

/-- Consume the next fault token. -/
def World.dropFault (w : World) : World := { w with faults := w.faults.tail }

/-- Result of a peer RPC that carries a payload. -/
inductive RpcRes (α : Type) where
  | ok (a : α)
  | notFound
  | fail
deriving DecidableEq, Repr

/-- The outcome tag of an RPC result. -/
def RpcRes.outcome {α : Type} : RpcRes α → Outcome
  | .ok _ => .ok
  | .notFound => .notFound
  | .fail => .fail

/-- Output of a payload-carrying RPC. -/
structure RpcOut (α : Type) where
  w : World
  t : Trace
  r : RpcRes α

/-- Output of an RPC or loop that reports only success/failure. -/
structure FlagOut where
  w : World
  t : Trace
  ok : Bool

/-- `peer.Committed()` (`client/log_client.go`): a remote 404 is mapped by
the client to `lm2log.ErrNotFound`; other remote errors and network faults
are generic failures. -/
def rpcCommitted (w : World) : RpcOut LogPayload :=
  let w1 := w.dropFault
  let r : RpcRes LogPayload :=
    if w.nextFault then .fail
    else
      match w1.peerLog with
      | none => .fail
      | some pl =>
          match pl.Committed with
          | .ok p => .ok p
          | .error e => if e.statusCode = 404 then .notFound else .fail
  ⟨w1, [.rpcEv .committedK r.outcome], r⟩

/-- `peer.Prepared()`: same error mapping as `peer.Committed()`. -/
def rpcPrepared (w : World) : RpcOut LogPayload :=
  let w1 := w.dropFault
  let r : RpcRes LogPayload :=
    if w.nextFault then .fail
    else
      match w1.peerLog with
      | none => .fail
      | some pl =>
          match pl.Prepared with
          | .ok p => .ok p
          | .error e => if e.statusCode = 404 then .notFound else .fail
  ⟨w1, [.rpcEv .preparedK r.outcome], r⟩

/-- `peer.Prepare(payload)`: on success the remote log transitions exactly
as the remote `Log.Prepare` does; a remote error leaves the remote state
unchanged. -/
def rpcPrepare (w : World) (p : LogPayload) : FlagOut :=
  let w1 := w.dropFault
  if w.nextFault then ⟨w1, [.rpcEv .prepareK .fail], false⟩
  else
    match w1.peerLog with
    | none => ⟨w1, [.rpcEv .prepareK .fail], false⟩
    | some pl =>
        let r := pl.Prepare p
        match r.err with
        | none => ⟨{ w1 with peerLog := some r.log }, [.rpcEv .prepareK .ok], true⟩
        | some _ => ⟨w1, [.rpcEv .prepareK .fail], false⟩

/-- `peer.Commit()`: the remote commit takes effect even when the remote
`Apply` fails (the RPC then reports failure). -/
def rpcCommit (w : World) : FlagOut :=
  let w1 := w.dropFault
  if w.nextFault then ⟨w1, [.rpcEv .commitK .fail], false⟩
  else
    match w1.peerLog with
    | none => ⟨w1, [.rpcEv .commitK .fail], false⟩
    | some pl =>
        let r := pl.Commit
        let w2 := { w1 with peerLog := some r.log }
        match r.err with
        | none => ⟨w2, [.rpcEv .commitK .ok], true⟩
        | some _ => ⟨w2, [.rpcEv .commitK .fail], false⟩

/-- `peer.Rollback()`. -/
def rpcRollback (w : World) : FlagOut :=
  let w1 := w.dropFault
  if w.nextFault then ⟨w1, [.rpcEv .rollbackK .fail], false⟩
  else
    match w1.peerLog with
    | none => ⟨w1, [.rpcEv .rollbackK .fail], false⟩
    | some pl =>
        let r := pl.Rollback
        ⟨{ w1 with peerLog := some r.log }, [.rpcEv .rollbackK .ok], true⟩

/-- `peer.GetRecord(v)`. -/
def rpcGetRecord (w : World) (v : Nat) : RpcOut LogPayload :=
  let w1 := w.dropFault
  if w.nextFault then ⟨w1, [.rpcEv .getRecordK .fail], .fail⟩
  else
    match w1.peerLog with
    | none => ⟨w1, [.rpcEv .getRecordK .fail], .fail⟩
    | some pl =>
        match pl.Record v with
        | .ok p => ⟨w1, [.rpcEv .getRecordK .ok], .ok p⟩
        | .error _ => ⟨w1, [.rpcEv .getRecordK .fail], .fail⟩

/-- The `Doer` state that survives between operations: the `peerInSync`
flag (`doer.go` line 735).  The commit log and peer live in the `World`. -/
structure Doer where
  peerInSync : Bool
deriving DecidableEq, Repr

/-- The committed-version read at the top of `Doer.Do` (`doer.go` lines
859-868): a `Committed` error whose underlying `Err` is nil (nothing
committed yet) is treated as version 0; any other error aborts. -/
def doCommittedVersion (l : Log) : Except LogError Nat :=
  match l.Committed with
  | .ok pl => .ok pl.version
  | .error e => if e.err.isSome then .error e else .ok 0

/-- The peer `Prepare` retry loop of `Doer.Do` (`doer.go` lines 878-885): up
to `n` attempts, stopping at the first success. -/
def retryPrepare : Nat → World → LogPayload → FlagOut
  | 0, w, _ => ⟨w, [], false⟩
  | n + 1, w, p =>
      let a := rpcPrepare w p
      if a.ok then ⟨a.w, a.t, true⟩
      else
        let rest := retryPrepare n a.w p
        ⟨rest.w, a.t ++ rest.t, rest.ok⟩

/-- The peer `Commit` retry loop of `Doer.Do` (`doer.go` lines 905-912). -/
def retryCommit : Nat → World → FlagOut
  | 0, w => ⟨w, [], false⟩
  | n + 1, w =>
      let a := rpcCommit w
      if a.ok then ⟨a.w, a.t, true⟩
      else
        let rest := retryCommit n a.w
        ⟨rest.w, a.t ++ rest.t, rest.ok⟩

/-- Output of a peer phase inside `Doer.Do`. -/
structure PhaseOut where
  d : Doer
  w : World
  t : Trace

/-- The prepare-on-peer phase of `Doer.Do` (`doer.go` lines 877-891): only
when a peer is configured and in sync; on persistent failure the peer is
marked out of sync and the write continues. -/
def doPeerPreparePhase (d : Doer) (w : World) (p : LogPayload) : PhaseOut :=
  if w.peerLog.isSome && d.peerInSync then
    let r := retryPrepare 3 w p
    ⟨if r.ok then d else ⟨false⟩, r.w, r.t⟩
  else ⟨d, w, []⟩

/-- The commit-on-peer phase of `Doer.Do` (`doer.go` lines 904-919). -/
def doPeerCommitPhase (d : Doer) (w : World) : PhaseOut :=
  if w.peerLog.isSome && d.peerInSync then
    let r := retryCommit 3 w
    ⟨if r.ok then d else ⟨false⟩, r.w, r.t⟩
  else ⟨d, w, []⟩

/-- Result of a `Doer.Do` run. -/
structure DoRes where
  doer : Doer
  world : World
  t : Trace
  err : Option LogError

/-- `Doer.Do` (`doer.go` lines 849-922): lock resources, read the committed
version, overwrite the payload version when `ignoreVersion`, prepare
locally, prepare on the peer (3 retries, downgrade to out-of-sync), commit
locally (rolling back on commit failure), commit on the peer (3 retries,
downgrade to out-of-sync).  The modelled local rollback is total, so the
`log.Fatalln` branch for a failed rollback is unreachable in the model. -/
def Doer.Do (d : Doer) (w : World) (p : LogPayload) (iv : Bool) : DoRes :=
  match w.loc.LockResources p.op with
  | some e => ⟨d, w, [], some e⟩
  | none =>
      match doCommittedVersion w.loc with
      | .error e => ⟨d, w, [], some e⟩
      | .ok cv =>
          let p1 := if iv then { p with version := cv + 1 } else p
          let pr := w.loc.Prepare p1
          match pr.err with
          | some e => ⟨d, w, [], some e⟩
          | none =>
              let w1 := { w with loc := pr.log }
              let ph := doPeerPreparePhase d w1 p1
              let c := ph.w.loc.Commit
              let w3 := { ph.w with loc := c.log }
              match c.err with
              | some e =>
                  let rb := w3.loc.Rollback
                  ⟨ph.d, { w3 with loc := rb.log }, ph.t ++ c.evs, some e⟩
              | none =>
                  let pc := doPeerCommitPhase ph.d w3
                  ⟨pc.d, pc.w, ph.t ++ c.evs ++ pc.t, none⟩

/-- The `POST /do` handler (`doer.go` lines 924-962) with the
`ignore-version` query parameter: `siesta.Params.Bool("ignore-version",
true, ...)` yields the default `true` when the parameter is absent (the
siesta parameter parser is external; its absent-means-default semantics is
modelled here).  Body decoding and parameter-syntax failures are out of
scope: `q` is the parsed parameter and `body` the decoded payload. -/
def Doer.handlerDo (d : Doer) (w : World) (q : Option Bool) (body : LogPayload) : DoRes :=
  d.Do w body (q.getD true)

/-- Result of `NewDoer`: final world, trace, and the constructed `Doer`
(`none` means `NewDoer` returned an error). -/
structure NDRes where
  w : World
  t : Trace
  res : Option Doer

/-- The tail of `NewDoer` (`doer.go` lines 839-846): set `peerInSync` (or
not, when control jumped to `SKIP_PEER`) and call `commitLog.Commit()`
unconditionally; a commit failure fails startup. -/
def ndFinish (w : World) (t : Trace) (inSync : Bool) : NDRes :=
  let c := w.loc.Commit
  let w1 := { w with loc := c.log }
  match c.err with
  | none => ⟨w1, t ++ c.evs ++ [.locEv .commitK .ok], some ⟨inSync⟩⟩
  | some _ => ⟨w1, t ++ c.evs ++ [.locEv .commitK .fail], none⟩

/-- The push loop of `NewDoer` (`doer.go` lines 767-784): push records
`i+1 .. lcv` to the peer; any failure jumps to `SKIP_PEER` (flag `false`).
The fuel is `lcv - i`; the uint64 wrap-around traversal that the Go loop
would perform when `i > lcv` is outside the modelled scope (the branch is
entered only with `i ≤ lcv`). -/
def pushLoop : Nat → World → Nat → Nat → FlagOut
  | 0, w, _, _ => ⟨w, [], true⟩
  | fuel + 1, w, i, lcv =>
      if i = lcv then ⟨w, [], true⟩
      else
        match w.loc.Record (i + 1) with
        | .error _ => ⟨w, [.locEv .recordK .fail], false⟩
        | .ok payload =>
            let rp := rpcPrepare w payload
            if rp.ok then
              let rc := rpcCommit rp.w
              if rc.ok then
                let rest := pushLoop fuel rc.w (i + 1) lcv
                ⟨rest.w, [.locEv .recordK .ok] ++ rp.t ++ rc.t ++ rest.t, rest.ok⟩
              else ⟨rc.w, [.locEv .recordK .ok] ++ rp.t ++ rc.t, false⟩
            else ⟨rp.w, [.locEv .recordK .ok] ++ rp.t, false⟩

/-- The pull loop of `NewDoer` (`doer.go` lines 791-805): fetch records
`i+1 .. pcv` from the peer and prepare + commit them locally; any failure
is fatal to startup (flag `false`). -/
def pullLoop : Nat → World → Nat → Nat → FlagOut
  | 0, w, _, _ => ⟨w, [], true⟩
  | fuel + 1, w, i, pcv =>
      if i = pcv then ⟨w, [], true⟩
      else
        let rg := rpcGetRecord w (i + 1)
        match rg.r with
        | .ok payload =>
            let pr := rg.w.loc.Prepare payload
            match pr.err with
            | some _ => ⟨rg.w, rg.t ++ [.locEv .prepareK .fail], false⟩
            | none =>
                let w1 := { rg.w with loc := pr.log }
                let c := w1.loc.Commit
                let w2 := { w1 with loc := c.log }
                match c.err with
                | some _ =>
                    ⟨w2, rg.t ++ [.locEv .prepareK .ok] ++ c.evs ++ [.locEv .commitK .fail], false⟩
                | none =>
                    let rest := pullLoop fuel w2 (i + 1) pcv
                    ⟨rest.w,
                     rg.t ++ [.locEv .prepareK .ok] ++ c.evs ++ [.locEv .commitK .ok] ++ rest.t,
                     rest.ok⟩
        | _ => ⟨rg.w, rg.t, false⟩

/-- The rollback step of the prepared-record check (`doer.go` lines
826-837): when either side reports an outstanding prepared version, roll
back the local log and then the peer; a peer rollback failure jumps to
`SKIP_PEER`. -/
def ndRollbackBoth (w : World) (t : Trace) (lpv ppv : Nat) : NDRes :=
  if 0 < lpv ∨ 0 < ppv then
    let rb := w.loc.Rollback
    let w1 := { w with loc := rb.log }
    let t1 := t ++ [.locEv .rollbackK .ok]
    let rr := rpcRollback w1
    if rr.ok then ndFinish rr.w (t1 ++ rr.t) true
    else ndFinish rr.w (t1 ++ rr.t) false
  else ndFinish w t true

/-- The prepared-record check of `NewDoer` (`doer.go` lines 810-838): read
both sides' prepared versions; if either is present, roll back both sides.
A peer RPC failure jumps to `SKIP_PEER`; a local `Prepared` failure that is
not a 404 is fatal. -/
def ndCheckPrepared (w : World) (t : Trace) : NDRes :=
  let rp := rpcPrepared w
  match rp.r with
  | .fail => ndFinish rp.w (t ++ rp.t) false
  | _ =>
      let ppv := match rp.r with | .ok p => p.version | _ => 0
      match rp.w.loc.Prepared with
      | .error e =>
          if e.statusCode = 404 then
            ndRollbackBoth rp.w (t ++ rp.t ++ [.locEv .preparedK .notFound]) 0 ppv
          else ⟨rp.w, t ++ rp.t ++ [.locEv .preparedK .fail], none⟩
      | .ok pl => ndRollbackBoth rp.w (t ++ rp.t ++ [.locEv .preparedK .ok]) pl.version ppv

/-- The committed-version reconciliation of `NewDoer` (`doer.go` lines
764-806) after both committed versions were read. -/
def ndSyncCommitted (w : World) (t : Trace) (pcv lcv : Nat) : NDRes :=
  if pcv ≤ lcv then
    let pu := pushLoop (lcv - pcv) w pcv lcv
    if pu.ok then ndCheckPrepared pu.w (t ++ pu.t)
    else ndFinish pu.w (t ++ pu.t) false
  else
    let rb := w.loc.Rollback
    let w1 := { w with loc := rb.log }
    let t1 := t ++ [.locEv .rollbackK .ok]
    let pu := pullLoop (pcv - lcv) w1 lcv pcv
    if pu.ok then ndCheckPrepared pu.w (t1 ++ pu.t)
    else ⟨pu.w, t1 ++ pu.t, none⟩

/-- `NewDoer` (`doer.go` lines 740-847).  With no peer configured the peer
block is skipped and `peerInSync` is set.  With a peer: read the peer's
committed version (a non-`ErrNotFound` failure jumps to `SKIP_PEER`), read
the local committed version (a non-404 failure is fatal), reconcile the
committed versions, check the prepared records, then fall through to
`ndFinish`. -/
def NewDoer (w : World) : NDRes :=
  match w.peerLog with
  | none => ndFinish w [] true
  | some _ =>
      let rc := rpcCommitted w
      match rc.r with
      | .fail => ndFinish rc.w rc.t false
      | _ =>
          let pcv := match rc.r with | .ok p => p.version | _ => 0
          match rc.w.loc.Committed with
          | .error e =>
              if e.statusCode = 404 then
                ndSyncCommitted rc.w (rc.t ++ [.locEv .committedK .notFound]) pcv 0
              else ⟨rc.w, rc.t ++ [.locEv .committedK .fail], none⟩
          | .ok pl =>
              ndSyncCommitted rc.w (rc.t ++ [.locEv .committedK .ok]) pcv pl.version

/-- Result of the inner push loop of `Doer.syncPeer` and of one iteration of
its outer loop. -/
structure SyncOut where
  w : World
  t : Trace
  sleep : Bool

/-- The inner per-record push loop of `Doer.syncPeer` (`doer.go` lines
1018-1035), faithful to the source: each `continue` statement targets this
inner loop, so on a failure the loop sets the sleep flag and advances to
the next version instead of restarting the iteration.  The fuel is
`lcv - i`; the uint64 wrap-around traversal when the peer is ahead is
outside the modelled scope. -/
def syncInner : Nat → World → Nat → Nat → Bool → SyncOut
  | 0, w, _, _, sl => ⟨w, [], sl⟩
  | fuel + 1, w, i, lcv, sl =>
      if i = lcv then ⟨w, [], sl⟩
      else
        match w.loc.Record (i + 1) with
        | .error _ =>
            let rest := syncInner fuel w (i + 1) lcv true
            ⟨rest.w, [.locEv .recordK .fail] ++ rest.t, rest.sleep⟩
        | .ok payload =>
            let rp := rpcPrepare w payload
            if rp.ok then
              let rc := rpcCommit rp.w
              if rc.ok then
                let rest := syncInner fuel rc.w (i + 1) lcv sl
                ⟨rest.w, [.locEv .recordK .ok] ++ rp.t ++ rc.t ++ rest.t, rest.sleep⟩
              else
                let rest := syncInner fuel rc.w (i + 1) lcv true
                ⟨rest.w, [.locEv .recordK .ok] ++ rp.t ++ rc.t ++ rest.t, rest.sleep⟩
            else
              let rest := syncInner fuel rp.w (i + 1) lcv true
              ⟨rest.w, [.locEv .recordK .ok] ++ rp.t ++ rest.t, rest.sleep⟩

/-- Result of one `Doer.syncPeer` outer-loop iteration: the new world, the
trace, whether the sleep flag was set, and whether the iteration declared
the peer in sync. -/
structure SyncIterRes where
  w : World
  t : Trace
  sleep : Bool
  setInSync : Bool

/-- One iteration of the outer loop of `Doer.syncPeer` (`doer.go` lines
991-1035) in the out-of-sync state: best-effort peer rollback (result
ignored), read the peer's committed version (non-`ErrNotFound` failure
sleeps and retries), read the local committed version (any failure sleeps
and retries), declare in-sync when equal, otherwise run the inner push
loop. -/
def syncPeerIteration (w : World) : SyncIterRes :=
  let rr := rpcRollback w
  let rc := rpcCommitted rr.w
  match rc.r with
  | .fail => ⟨rc.w, rr.t ++ rc.t, true, false⟩
  | _ =>
      let pcv := match rc.r with | .ok p => p.version | _ => 0
      match rc.w.loc.Committed with
      | .error e =>
          ⟨rc.w,
           rr.t ++ rc.t ++ [.locEv .committedK (if e.statusCode = 404 then .notFound else .fail)],
           true, false⟩
      | .ok pl =>
          let lcv := pl.version
          let t0 := rr.t ++ rc.t ++ [.locEv .committedK .ok]
          if lcv = pcv then ⟨rc.w, t0, false, true⟩
          else
            let si := syncInner (lcv - pcv) rc.w pcv lcv false
            ⟨si.w, t0 ++ si.t, si.sleep, false⟩

/-- A concrete operation used in the concrete scenarios below. -/
def opA : Operation := ⟨"set", "a"⟩

/-- A second concrete operation. -/
def opB : Operation := ⟨"set", "b"⟩

/-- A service that accepts every operation and applies successfully. -/
def svcAll : Service := ⟨fun _ => true, fun _ _ => true, fun _ => true⟩

/-- C1 scenario: a log with `applyCommits = false` holding the prepared
record (version 1, `opA`). -/
def logApplyOff : Log := ⟨svcAll, false, ⟨[(1, opA)], 0, some 1⟩⟩

/-- C2 scenario: local log with committed versions 1-2, an empty peer, and
one network fault scheduled for the third RPC of the sync iteration (the
first push attempt, after the best-effort rollback and the committed
read). -/
def syncBugWorld : World :=
  ⟨⟨svcAll, true, ⟨[(1, opA), (2, opB)], 2, none⟩⟩,
   some ⟨svcAll, true, ⟨[], 0, none⟩⟩,
   [false, false, true]⟩

/-- C3 counterexample scenario: local log with committed version 3 whose
record for version 2 was compacted away (`Compact(keep=1)`), a peer at
committed version 1, and no network faults: every peer RPC that is issued
succeeds, but reconciliation still jumps to `SKIP_PEER` when the local
`Record(2)` fetch fails. -/
def staleRecordWorld : World :=
  ⟨⟨svcAll, true, ⟨[(3, opA)], 3, none⟩⟩,
   some ⟨svcAll, true, ⟨[(1, opB)], 1, none⟩⟩,
   []⟩

/-- C3 witness scenario (success half): a peer one version behind. -/
def peerBehindWorld : World :=
  ⟨⟨svcAll, true, ⟨[(1, opA), (2, opB)], 2, none⟩⟩,
   some ⟨svcAll, true, ⟨[(1, opA)], 1, none⟩⟩,
   []⟩

/-- C3 witness scenario (failure half): equal logs with a network fault on
the very first peer RPC. -/
def faultyPeerWorld : World :=
  ⟨⟨svcAll, true, ⟨[(1, opA)], 1, none⟩⟩,
   some ⟨svcAll, true, ⟨[(1, opA)], 1, none⟩⟩,
   [true]⟩

/-- C5 witness scenario: empty local log, empty peer, faults scheduled for
all three peer `Prepare` attempts. -/
def threeFaultWorld : World :=
  ⟨⟨svcAll, true, ⟨[], 0, none⟩⟩,
   some ⟨svcAll, true, ⟨[], 0, none⟩⟩,
   [true, true, true]⟩

/-- C4 witness scenario: solo primary (no peer) with one committed record. -/
def soloWorld : World :=
  ⟨⟨svcAll, true, ⟨[(1, opA)], 1, none⟩⟩, none, []⟩

/-! ## Supporting lemmas about the store and the log operations -/

/-- Rolling back always leaves no prepared record. -/
theorem LogStore.rollback_prepared (s : LogStore) : s.rollback.prepared = none := by
  cases s with
  | mk rs c pr => cases pr <;> rfl

/-- Rolling back with no prepared record is the identity on the store. -/
theorem LogStore.rollback_of_none (s : LogStore) (h : s.prepared = none) :
    s.rollback = s := by
  cases s with
  | mk rs c pr =>
      cases pr
      · rfl
      · simp at h

/-- Committing always clears the prepared record. -/
theorem LogStore.commit_prepared (s : LogStore) : s.commit.prepared = none := by
  cases s with
  | mk rs c pr => cases pr <;> rfl

/-- Committing with no prepared record is the identity on the store. -/
theorem LogStore.commit_of_none (s : LogStore) (h : s.prepared = none) :
    s.commit = s := by
  cases s with
  | mk rs c pr =>
      cases pr
      · rfl
      · simp at h

/-- Committing with a prepared record promotes it. -/
theorem LogStore.commit_of_some (s : LogStore) (v : Nat) (h : s.prepared = some v) :
    s.commit = { s with committed := v, prepared := none } := by
  cases s with
  | mk rs c pr =>
      cases pr
      · simp at h
      · simp only [LogStore.prepared] at h
        cases h
        rfl

/-- A store with no prepared record satisfies the invariant. -/
theorem LogStore.wf_of_prepared_none (s : LogStore) (h : s.prepared = none) :
    s.wf = true := by
  cases s with
  | mk rs c pr =>
      cases pr
      · rfl
      · simp at h

/-- A record written by `setRecord` is read back by `get`. -/
theorem LogStore.get_setRecord_self (s : LogStore) (c : Nat)
    (pr : Option Nat) (v : Nat) (op : Operation) :
    (LogStore.mk (s.setRecord v op) c pr).get v = some op := by
  simp [LogStore.get, LogStore.setRecord, List.find?]

/-- Every branch of `Log.Commit` returns the log with the committed store. -/
theorem Log.Commit_log (l : Log) : (l.Commit).log = { l with store := l.store.commit } := by
  unfold Log.Commit
  simp only
  split
  · rfl
  · split
    · rfl
    · split <;> rfl

/-- `Log.Prepare` preserves the store invariant. -/
theorem Log.wf_Prepare (l : Log) (p : LogPayload) (h : l.store.wf = true) :
    ((l.Prepare p).log).store.wf = true := by
  unfold Log.Prepare
  split
  · exact h
  · split
    · exact h
    · unfold LogStore.prepare
      cases hp : l.store.prepared with
      | some v => simpa [hp] using h
      | none => simp [hp, LogStore.wf]

/-! ## Claim C1 -/

/-- Claim C1: `Log.Commit` promotes the prepared record to committed, but —
contrary to the claim and to the doc comment on the `applyCommits` field —
it invokes `service.Apply` even when `applyCommits` is false: on
`logApplyOff` (whose `applyCommits` is `false` and whose prepared record is
version 1 with `opA`) the commit emits the `Apply(1, opA)` invocation. -/
theorem claim1_commit_applies_ignoring_applyCommits :
    logApplyOff.applyCommits = false ∧
    (Log.Commit logApplyOff).log.store.committed = 1 ∧
    (Log.Commit logApplyOff).log.store.prepared = none ∧
    (Log.Commit logApplyOff).evs = [Ev.applyEv 1 opA] := by
  decide

/-! ## Claim C2 -/

/-- Claim C2: in the sync-loop iteration on `syncBugWorld` (peer behind by
two versions, a network fault on the first push), the claimed behaviour is
to stop after the failed push of version 1 and restart the iteration — one
peer `Prepare` attempt.  Faithful to the source, the `continue` statements
target the inner per-record loop, so the iteration makes a second peer
`Prepare` attempt for version 2 after the failure (and only then defers to
the sleep flag, without declaring the peer in sync). -/
theorem claim2_sync_inner_loop_skips_failed_record :
    ((syncPeerIteration syncBugWorld).t.filter Ev.isPrepAttempt).length = 2 ∧
    (syncPeerIteration syncBugWorld).t.filter Ev.isPrepAttempt =
      [Ev.rpcEv .prepareK .fail, Ev.rpcEv .prepareK .fail] ∧
    (syncPeerIteration syncBugWorld).sleep = true ∧
    (syncPeerIteration syncBugWorld).setInSync = false := by
  decide

/-! ## Claim C7 -/

/-- Each public operation preserves the prepared-version invariant. -/
theorem wf_applyLogOp (l : Log) (o : LogOp) (h : l.store.wf = true) :
    (applyLogOp l o).store.wf = true := by
  cases o with
  | prepareOp p => simpa only [applyLogOp] using Log.wf_Prepare l p h
  | commitOp =>
      simp only [applyLogOp, Log.Commit_log]
      exact LogStore.wf_of_prepared_none _ (LogStore.commit_prepared l.store)
  | rollbackOp =>
      simp only [applyLogOp, Log.Rollback]
      exact LogStore.wf_of_prepared_none _ (LogStore.rollback_prepared l.store)
  | compactOp k =>
      simp only [applyLogOp, Log.Compact]
      cases hp : l.store.prepared with
      | none => exact LogStore.wf_of_prepared_none _ hp
      | some v =>
          unfold LogStore.wf at h ⊢
          simp only [LogStore.compact, hp] at h ⊢
          exact h

/-- The invariant holds after any sequence of public operations. -/
theorem wf_runOps (l : Log) (ops : List LogOp) (h : l.store.wf = true) :
    (runOps l ops).store.wf = true := by
  induction ops generalizing l with
  | nil => exact h
  | cons o rest ih => exact ih _ (wf_applyLogOp l o h)

/-- Claim C7: in every state reachable from the empty log through the
public operations `Prepare`, `Commit`, `Rollback`, `Compact`, the prepared
record (unique by the store representation) has version exactly
`committed + 1` whenever it exists. -/
theorem claim7_prepared_version_invariant (svc : Service) (ac : Bool)
    (ops : List LogOp) (v : Nat)
    (h : (runOps (emptyLog svc ac) ops).store.prepared = some v) :
    v = (runOps (emptyLog svc ac) ops).store.committed + 1 := by
  have hw := wf_runOps (emptyLog svc ac) ops (by rfl)
  unfold LogStore.wf at hw
  rw [h] at hw
  simpa using hw

/-- Witness for C7: after a single `Prepare` on the empty log the prepared
version is 1 = committed + 1. -/
theorem claim7_witness :
    (runOps (emptyLog svcAll true) [LogOp.prepareOp ⟨1, opA⟩]).store.prepared = some 1 ∧
    1 = (runOps (emptyLog svcAll true) [LogOp.prepareOp ⟨1, opA⟩]).store.committed + 1 :=
  ⟨by decide, claim7_prepared_version_invariant svcAll true [LogOp.prepareOp ⟨1, opA⟩] 1 (by decide)⟩

/-! ## Claim C8 -/

/-- Claim C8: `Log.Rollback` in a state with no prepared record succeeds and
leaves the state unchanged; rollback never reports an error; and rollback
applied twice equals rollback applied once. -/
theorem claim8_rollback_noop_idempotent (l : Log) :
    (l.store.prepared = none → l.Rollback = ⟨l, none⟩) ∧
    (l.Rollback).err = none ∧
    ((l.Rollback).log.Rollback).log = (l.Rollback).log := by
  refine ⟨fun h => ?_, rfl, ?_⟩
  · unfold Log.Rollback
    rw [LogStore.rollback_of_none l.store h]
  · unfold Log.Rollback
    simp only
    rw [LogStore.rollback_of_none _ (LogStore.rollback_prepared l.store)]

/-- Witness for C8: rollback of the empty log is a no-op without error. -/
theorem claim8_witness :
    (emptyLog svcAll true).store.prepared = none ∧
    (emptyLog svcAll true).Rollback = ⟨emptyLog svcAll true, none⟩ :=
  ⟨rfl, (claim8_rollback_noop_idempotent (emptyLog svcAll true)).1 rfl⟩

/-! ## Claim C6 -/

/-- `LogStore.prepare` with no outstanding prepared record writes the record
at `committed + 1`. -/
theorem LogStore.prepare_of_none (s : LogStore) (op : Operation) (h : s.prepared = none) :
    s.prepare op =
      some ⟨s.setRecord (s.committed + 1) op, s.committed, some (s.committed + 1)⟩ := by
  cases s with
  | mk rs c pr =>
      cases pr
      · rfl
      · simp at h

/-- `LogStore.prepare` with an outstanding prepared record fails. -/
theorem LogStore.prepare_of_some (s : LogStore) (op : Operation) (v : Nat)
    (h : s.prepared = some v) : s.prepare op = none := by
  cases s with
  | mk rs c pr =>
      cases pr
      · simp at h
      · rfl

/-- Claim C6: `Log.Prepare` returns a 400 error and leaves the log unchanged
when the payload version is not `committed + 1` or the service rejects the
operation; any failing `Prepare` leaves the log unchanged; and a successful
`Prepare` implies both preconditions held and wrote exactly the prepared
record at `committed + 1`. -/
theorem claim6_prepare_preconditions (l : Log) (p : LogPayload) :
    ((p.version ≠ l.store.committed + 1 ∨ l.service.validateOk p.op = false) →
      (l.Prepare p).log = l ∧ ∃ e, (l.Prepare p).err = some e ∧ e.statusCode = 400) ∧
    ((l.Prepare p).err ≠ none → (l.Prepare p).log = l) ∧
    ((l.Prepare p).err = none →
      p.version = l.store.committed + 1 ∧ l.service.validateOk p.op = true ∧
      (l.Prepare p).log.store.prepared = some (l.store.committed + 1) ∧
      (l.Prepare p).log.store.get (l.store.committed + 1) = some p.op ∧
      (l.Prepare p).log.store.committed = l.store.committed) := by
  by_cases hv : p.version = l.store.committed + 1
  · by_cases hval : l.service.validateOk p.op = true
    · cases hp : l.store.prepared with
      | some v =>
          have hpr : l.store.prepare p.op = none := LogStore.prepare_of_some _ _ _ hp
          refine ⟨?_, ?_, ?_⟩
          · rintro (h | h)
            · exact absurd hv h
            · rw [hval] at h; exact absurd h (by simp)
          · intro _
            simp [Log.Prepare, hv, hval, hpr]
          · intro herr
            exfalso
            simp [Log.Prepare, hv, hval, hpr] at herr
      | none =>
          have hpr := LogStore.prepare_of_none l.store p.op hp
          refine ⟨?_, ?_, ?_⟩
          · rintro (h | h)
            · exact absurd hv h
            · rw [hval] at h; exact absurd h (by simp)
          · intro herr
            exfalso
            simp [Log.Prepare, hv, hval, hpr] at herr
          · intro _
            refine ⟨hv, hval, ?_, ?_, ?_⟩
            · simp [Log.Prepare, hv, hval, hpr]
            · simp only [Log.Prepare, hv, hval, hpr]
              simp [LogStore.get_setRecord_self]
            · simp [Log.Prepare, hv, hval, hpr]
    · refine ⟨?_, ?_, ?_⟩
      · intro _
        refine ⟨by simp [Log.Prepare, hv, hval], ⟨"internal", 400, some "invalid operation"⟩,
          by simp [Log.Prepare, hv, hval], rfl⟩
      · intro _
        simp [Log.Prepare, hv, hval]
      · intro herr
        exfalso
        simp [Log.Prepare, hv, hval] at herr
  · refine ⟨?_, ?_, ?_⟩
    · intro _
      refine ⟨by simp [Log.Prepare, hv], ⟨"internal", 400, some "preparing invalid version"⟩, by simp [Log.Prepare, hv], rfl⟩
    · intro _
      simp [Log.Prepare, hv]
    · intro herr
      exfalso
      simp [Log.Prepare, hv] at herr

/-- Witness for C6: on the empty log, preparing version 5 fails with a 400
error leaving the log unchanged, and preparing version 1 writes the
prepared record. -/
theorem claim6_witness :
    (((emptyLog svcAll true).Prepare ⟨5, opA⟩).log = emptyLog svcAll true ∧
      ∃ e, ((emptyLog svcAll true).Prepare ⟨5, opA⟩).err = some e ∧ e.statusCode = 400) ∧
    ((emptyLog svcAll true).Prepare ⟨1, opA⟩).log.store.prepared = some 1 := by
  constructor
  · exact (claim6_prepare_preconditions (emptyLog svcAll true) ⟨5, opA⟩).1 (Or.inl (by decide))
  · exact ((claim6_prepare_preconditions (emptyLog svcAll true) ⟨1, opA⟩).2.2 (by decide)).2.2.1

/-! ## Claim C10 -/

/-- Claim C10: `Log.Committed` with nothing committed returns the 404
`LogError` with a nil underlying `Err`; every other `Committed` error
carries a non-nil `Err`; and the committed-version read at the top of
`Doer.Do` proceeds with version 0 exactly when that `Err` is nil, while a
non-nil `Err` makes `Do` return the error with everything unchanged. -/
theorem claim10_committed_notfound_nil_err :
    (∀ l : Log, l.store.committed = 0 →
       l.Committed = .error ⟨"internal", 404, none⟩) ∧
    (∀ (l : Log) (e : LogError), l.Committed = .error e → l.store.committed ≠ 0 →
       e.err.isSome = true) ∧
    (∀ (l : Log) (e : LogError), l.Committed = .error e → e.err = none →
       doCommittedVersion l = .ok 0) ∧
    (∀ (d : Doer) (w : World) (p : LogPayload) (iv : Bool) (e : LogError),
       w.loc.LockResources p.op = none →
       w.loc.Committed = .error e → e.err.isSome = true →
       Doer.Do d w p iv = ⟨d, w, [], some e⟩) := by
  refine ⟨?_, ?_, ?_, ?_⟩
  · intro l h
    simp [Log.Committed, h]
  · intro l e he h0
    unfold Log.Committed at he
    rw [if_neg h0] at he
    cases hg : l.store.get l.store.committed <;> rw [hg] at he
    · cases he
      rfl
    · cases he
  · intro l e he hnone
    unfold doCommittedVersion
    rw [he]
    simp [hnone]
  · intro d w p iv e hlock he hsome
    unfold Doer.Do
    rw [hlock]
    have hcv : doCommittedVersion w.loc = .error e := by
      unfold doCommittedVersion
      rw [he]
      simp [hsome]
    rw [hcv]

/-- Witness for C10: the empty log yields the nil-`Err` 404 and `Do`
proceeds with version 0 there; a log claiming committed version 1 with no
record yields a non-nil `Err` and `Do` aborts with that error. -/
theorem claim10_witness :
    (emptyLog svcAll true).Committed = .error ⟨"internal", 404, none⟩ ∧
    doCommittedVersion (emptyLog svcAll true) = .ok 0 ∧
    Doer.Do ⟨true⟩ ⟨⟨svcAll, true, ⟨[], 1, none⟩⟩, none, []⟩ ⟨0, opA⟩ true =
      ⟨⟨true⟩, ⟨⟨svcAll, true, ⟨[], 1, none⟩⟩, none, []⟩, [], some ⟨"internal", 500, some "get failed"⟩⟩ := by
  refine ⟨?_, ?_, ?_⟩
  · exact claim10_committed_notfound_nil_err.1 (emptyLog svcAll true) rfl
  · exact claim10_committed_notfound_nil_err.2.2.1 (emptyLog svcAll true)
      ⟨"internal", 404, none⟩ rfl rfl
  · exact claim10_committed_notfound_nil_err.2.2.2 ⟨true⟩ _ ⟨0, opA⟩ true
      ⟨"internal", 500, some "get failed"⟩ rfl rfl rfl

/-! ## Claim C9 -/

/-- Claim C9: with the `ignore-version` query parameter absent, the `/do`
handler invokes `Do` with `ignoreVersion = true` (the siesta parameter
defaults to `true`), and consequently the caller-supplied version in the
body is irrelevant: the handler result is the same for every body
version. -/
theorem claim9_handler_default_ignore_version (d : Doer) (w : World)
    (body : LogPayload) (v : Nat) :
    d.handlerDo w none body = d.Do w body true ∧
    d.handlerDo w none ⟨v, body.op⟩ = d.handlerDo w none body := by
  constructor
  · rfl
  · rfl

/-! ## Machinery for the `Doer.Do` claims (C4, C5) -/

/-- `Log.Committed` returns the committed version on success. -/
theorem Log.Committed_ok_version (l : Log) (pl : LogPayload)
    (h : l.Committed = .ok pl) : pl.version = l.store.committed := by
  unfold Log.Committed at h
  split at h
  · cases h
  · cases hg : l.store.get l.store.committed <;> rw [hg] at h
    · cases h
    · cases h
      rfl

/-- A `Committed` error with nil `Err` happens only with nothing committed. -/
theorem Log.Committed_error_none (l : Log) (e : LogError)
    (h : l.Committed = .error e) (hn : e.err = none) : l.store.committed = 0 := by
  unfold Log.Committed at h
  split at h
  · assumption
  · cases hg : l.store.get l.store.committed <;> rw [hg] at h
    · cases h
      cases hn
    · cases h

/-- The committed version read by `Do` equals the store's committed
version. -/
theorem doCommittedVersion_ok (l : Log) (cv : Nat)
    (h : doCommittedVersion l = .ok cv) : cv = l.store.committed := by
  unfold doCommittedVersion at h
  cases hc : l.Committed with
  | ok pl =>
      rw [hc] at h
      simp at h
      rw [← h]
      exact Log.Committed_ok_version l pl hc
  | error e =>
      rw [hc] at h
      simp only at h
      cases hn : e.err with
      | some s => simp [hn] at h
      | none =>
          simp [hn] at h
          rw [← h, Log.Committed_error_none l e hc hn]

/-- Characterization of a successful store prepare. -/
theorem LogStore.prepare_eq_some (s s' : LogStore) (op : Operation)
    (h : s.prepare op = some s') :
    s.prepared = none ∧
    s' = ⟨s.setRecord (s.committed + 1) op, s.committed, some (s.committed + 1)⟩ := by
  cases hp : s.prepared with
  | some v => rw [LogStore.prepare_of_some s op v hp] at h; cases h
  | none =>
      rw [LogStore.prepare_of_none s op hp] at h
      cases h
      exact ⟨rfl, rfl⟩

/-- A successful `Log.Prepare` yields exactly the prepared-record state. -/
theorem Log.Prepare_ok_shape (l : Log) (q : LogPayload)
    (h : (l.Prepare q).err = none) :
    (l.Prepare q).log =
      ⟨l.service, l.applyCommits,
       ⟨l.store.setRecord (l.store.committed + 1) q.op, l.store.committed,
        some (l.store.committed + 1)⟩⟩ := by
  unfold Log.Prepare at h ⊢
  by_cases hv : q.version ≠ l.store.committed + 1
  · rw [if_pos hv] at h
    cases h
  · rw [if_neg hv] at h ⊢
    by_cases hval : ¬l.service.validateOk q.op = true
    · rw [if_pos hval] at h
      cases h
    · rw [if_neg hval] at h ⊢
      cases hp : l.store.prepare q.op with
      | none => simp [hp] at h
      | some s =>
          obtain ⟨-, hs⟩ := LogStore.prepare_eq_some l.store s q.op hp
          subst hs
          rfl

/-- Committing right after a successful prepare: the store advances to
`committed + 1`, the freshly written record is fetched, and `Apply` is
invoked on it exactly once. -/
theorem Log.Commit_after_prepare (svc : Service) (ac : Bool) (s : LogStore) (op : Operation) :
    Log.Commit ⟨svc, ac, ⟨s.setRecord (s.committed + 1) op, s.committed,
        some (s.committed + 1)⟩⟩ =
      ⟨⟨svc, ac, ⟨s.setRecord (s.committed + 1) op, s.committed + 1, none⟩⟩,
       [.applyEv (s.committed + 1) op],
       if svc.applyOk (s.committed + 1) op then none
       else some ⟨"internal", 500, some "apply failed"⟩⟩ := by
  unfold Log.Commit
  by_cases ha : svc.applyOk (s.committed + 1) op = true <;>
    simp [LogStore.commit, LogStore.get_setRecord_self, ha]

/-- `rpcPrepare` leaves the local log untouched. -/
theorem rpcPrepare_loc (w : World) (p : LogPayload) : (rpcPrepare w p).w.loc = w.loc := by
  unfold rpcPrepare
  simp only
  split
  · rfl
  · split
    · rfl
    · split <;> rfl

/-- `rpcPrepare` emits exactly one peer-prepare attempt event. -/
theorem rpcPrepare_t_shape (w : World) (p : LogPayload) :
    ∃ o, (rpcPrepare w p).t = [Ev.rpcEv .prepareK o] := by
  unfold rpcPrepare
  simp only
  split
  · exact ⟨_, rfl⟩
  · split
    · exact ⟨_, rfl⟩
    · split <;> exact ⟨_, rfl⟩

/-- `rpcCommit` leaves the local log untouched. -/
theorem rpcCommit_loc (w : World) : (rpcCommit w).w.loc = w.loc := by
  unfold rpcCommit
  simp only
  split
  · rfl
  · split
    · rfl
    · split <;> rfl

/-- `rpcCommit` emits exactly one peer-commit attempt event. -/
theorem rpcCommit_t_shape (w : World) :
    ∃ o, (rpcCommit w).t = [Ev.rpcEv .commitK o] := by
  unfold rpcCommit
  simp only
  split
  · exact ⟨_, rfl⟩
  · split
    · exact ⟨_, rfl⟩
    · split <;> exact ⟨_, rfl⟩

/-- The prepare retry loop leaves the local log untouched. -/
theorem retryPrepare_loc (n : Nat) (w : World) (p : LogPayload) :
    (retryPrepare n w p).w.loc = w.loc := by
  induction n generalizing w with
  | zero => rfl
  | succ n ih =>
      unfold retryPrepare
      simp only
      split
      · exact rpcPrepare_loc w p
      · simp only
        rw [ih (rpcPrepare w p).w, rpcPrepare_loc w p]

/-- Every event of the prepare retry loop is a peer-prepare attempt. -/
theorem retryPrepare_t (n : Nat) (w : World) (p : LogPayload) :
    ∀ e ∈ (retryPrepare n w p).t, e.isPrepAttempt = true := by
  induction n generalizing w with
  | zero => intro e he; cases he
  | succ n ih =>
      unfold retryPrepare
      simp only
      obtain ⟨o, ho⟩ := rpcPrepare_t_shape w p
      split
      · intro e he
        rw [ho] at he
        simp only [List.mem_singleton] at he
        subst he
        rfl
      · intro e he
        simp only [List.mem_append] at he
        rcases he with he | he
        · rw [ho] at he
          simp only [List.mem_singleton] at he
          subst he
          rfl
        · exact ih _ e he

/-- The prepare retry loop makes at most `n` attempts. -/
theorem retryPrepare_t_len (n : Nat) (w : World) (p : LogPayload) :
    (retryPrepare n w p).t.length ≤ n := by
  induction n generalizing w with
  | zero => exact Nat.le_refl 0
  | succ n ih =>
      unfold retryPrepare
      simp only
      obtain ⟨o, ho⟩ := rpcPrepare_t_shape w p
      split
      · rw [ho]; simp
      · simp only [List.length_append, ho, List.length_singleton]
        have := ih (rpcPrepare w p).w
        omega

/-- The commit retry loop leaves the local log untouched. -/
theorem retryCommit_loc (n : Nat) (w : World) :
    (retryCommit n w).w.loc = w.loc := by
  induction n generalizing w with
  | zero => rfl
  | succ n ih =>
      unfold retryCommit
      simp only
      split
      · exact rpcCommit_loc w
      · simp only
        rw [ih (rpcCommit w).w, rpcCommit_loc w]

/-- Every event of the commit retry loop is a peer-commit attempt. -/
theorem retryCommit_t (n : Nat) (w : World) :
    ∀ e ∈ (retryCommit n w).t, e.isCommitAttempt = true := by
  induction n generalizing w with
  | zero => intro e he; cases he
  | succ n ih =>
      unfold retryCommit
      simp only
      obtain ⟨o, ho⟩ := rpcCommit_t_shape w
      split
      · intro e he
        rw [ho] at he
        simp only [List.mem_singleton] at he
        subst he
        rfl
      · intro e he
        simp only [List.mem_append] at he
        rcases he with he | he
        · rw [ho] at he
          simp only [List.mem_singleton] at he
          subst he
          rfl
        · exact ih _ e he

/-- The commit retry loop makes at most `n` attempts. -/
theorem retryCommit_t_len (n : Nat) (w : World) :
    (retryCommit n w).t.length ≤ n := by
  induction n generalizing w with
  | zero => exact Nat.le_refl 0
  | succ n ih =>
      unfold retryCommit
      simp only
      obtain ⟨o, ho⟩ := rpcCommit_t_shape w
      split
      · rw [ho]; simp
      · simp only [List.length_append, ho, List.length_singleton]
        have := ih (rpcCommit w).w
        omega

/-- The peer-prepare phase of `Do` leaves the local log untouched. -/
theorem doPeerPreparePhase_loc (d : Doer) (w : World) (p : LogPayload) :
    (doPeerPreparePhase d w p).w.loc = w.loc := by
  unfold doPeerPreparePhase
  split
  · exact retryPrepare_loc 3 w p
  · rfl

/-- Every event of the peer-prepare phase is a peer-prepare attempt. -/
theorem doPeerPreparePhase_t (d : Doer) (w : World) (p : LogPayload) :
    ∀ e ∈ (doPeerPreparePhase d w p).t, e.isPrepAttempt = true := by
  unfold doPeerPreparePhase
  split
  · exact retryPrepare_t 3 w p
  · intro e he; cases he

/-- The peer-prepare phase makes at most 3 attempts. -/
theorem doPeerPreparePhase_t_len (d : Doer) (w : World) (p : LogPayload) :
    (doPeerPreparePhase d w p).t.length ≤ 3 := by
  unfold doPeerPreparePhase
  split
  · exact retryPrepare_t_len 3 w p
  · simp

/-- The peer-commit phase of `Do` leaves the local log untouched. -/
theorem doPeerCommitPhase_loc (d : Doer) (w : World) :
    (doPeerCommitPhase d w).w.loc = w.loc := by
  unfold doPeerCommitPhase
  split
  · exact retryCommit_loc 3 w
  · rfl

/-- Every event of the peer-commit phase is a peer-commit attempt. -/
theorem doPeerCommitPhase_t (d : Doer) (w : World) :
    ∀ e ∈ (doPeerCommitPhase d w).t, e.isCommitAttempt = true := by
  unfold doPeerCommitPhase
  split
  · exact retryCommit_t 3 w
  · intro e he; cases he

/-- The peer-commit phase makes at most 3 attempts. -/
theorem doPeerCommitPhase_t_len (d : Doer) (w : World) :
    (doPeerCommitPhase d w).t.length ≤ 3 := by
  unfold doPeerCommitPhase
  split
  · exact retryCommit_t_len 3 w
  · simp

/-- A peer-prepare attempt event is not an `Apply` event. -/
theorem Ev.prep_not_apply (e : Ev) (h : e.isPrepAttempt = true) : e.isApply = false := by
  cases e <;> simp_all [Ev.isPrepAttempt, Ev.isApply]

/-- A peer-commit attempt event is not an `Apply` event. -/
theorem Ev.commit_not_apply (e : Ev) (h : e.isCommitAttempt = true) : e.isApply = false := by
  cases e <;> simp_all [Ev.isCommitAttempt, Ev.isApply]

/-- An `Apply` event is not a peer-prepare attempt. -/
theorem Ev.apply_not_prep (e : Ev) (h : e.isApply = true) : e.isPrepAttempt = false := by
  cases e <;> simp_all [Ev.isPrepAttempt, Ev.isApply]

/-- An `Apply` event is not a peer-commit attempt. -/
theorem Ev.apply_not_commit (e : Ev) (h : e.isApply = true) : e.isCommitAttempt = false := by
  cases e <;> simp_all [Ev.isCommitAttempt, Ev.isApply]

/-! ## Claim C4 -/

/-- Claim C4: every successful `Doer.Do` increments the local committed
version by exactly 1 and invokes `service.Apply` exactly once, on the new
committed version with the submitted operation. -/
theorem claim4_do_success_applies_once (d : Doer) (w : World) (p : LogPayload) (iv : Bool)
    (h : (Doer.Do d w p iv).err = none) :
    (Doer.Do d w p iv).world.loc.store.committed = w.loc.store.committed + 1 ∧
    (Doer.Do d w p iv).t.filter Ev.isApply =
      [Ev.applyEv (w.loc.store.committed + 1) p.op] := by
  unfold Doer.Do at h ⊢
  cases hlock : w.loc.LockResources p.op with
  | some e => rw [hlock] at h; cases h
  | none =>
      cases hcv : doCommittedVersion w.loc with
      | error e =>
          simp only [hlock, hcv] at h
          cases h
      | ok cv =>
          simp only [hlock, hcv] at h ⊢
          have hcve : cv = w.loc.store.committed := doCommittedVersion_ok w.loc cv hcv
          set q : LogPayload := if iv then { p with version := cv + 1 } else p with hq
          have hqop : q.op = p.op := by
            rw [hq]; cases iv <;> rfl
          cases hpe : (w.loc.Prepare q).err with
          | some e =>
              simp only [hpe] at h
              cases h
          | none =>
              simp only [hpe] at h ⊢
              rw [doPeerPreparePhase_loc] at h ⊢
              simp only at h ⊢
              rw [Log.Prepare_ok_shape w.loc q hpe] at h ⊢
              rw [Log.Commit_after_prepare] at h ⊢
              cases ha : w.loc.service.applyOk (w.loc.store.committed + 1) q.op with
              | false =>
                  simp only [ha, Bool.false_eq_true, if_false] at h
                  cases h
              | true =>
                  simp only [ha, if_true] at h ⊢
                  rw [doPeerCommitPhase_loc]
                  simp only
                  constructor
                  · trivial
                  · rw [List.filter_append, List.filter_append]
                    have hfp : ∀ (d2 : Doer) (w2 : World) (q2 : LogPayload),
                        List.filter Ev.isApply (doPeerPreparePhase d2 w2 q2).t = [] := by
                      intro d2 w2 q2
                      rw [List.filter_eq_nil_iff]
                      intro e he
                      simp [Ev.prep_not_apply e (doPeerPreparePhase_t _ _ _ e he)]
                    have hfc : ∀ (d2 : Doer) (w2 : World),
                        List.filter Ev.isApply (doPeerCommitPhase d2 w2).t = [] := by
                      intro d2 w2
                      rw [List.filter_eq_nil_iff]
                      intro e he
                      simp [Ev.commit_not_apply e (doPeerCommitPhase_t _ _ e he)]
                    rw [hfp, hfc]
                    simp [Ev.isApply, hqop]

/-! ## Claim C5 -/

/-- A peer-commit attempt event is not a peer-prepare attempt. -/
theorem Ev.commit_not_prep (e : Ev) (h : e.isCommitAttempt = true) :
    e.isPrepAttempt = false := by
  cases e with
  | applyEv v op => rfl
  | rpcEv k o => cases k <;> simp_all [Ev.isCommitAttempt, Ev.isPrepAttempt]
  | locEv k o => rfl

/-- A peer-prepare attempt event is not a peer-commit attempt. -/
theorem Ev.prep_not_commit (e : Ev) (h : e.isPrepAttempt = true) :
    e.isCommitAttempt = false := by
  cases e with
  | applyEv v op => rfl
  | rpcEv k o => cases k <;> simp_all [Ev.isCommitAttempt, Ev.isPrepAttempt]
  | locEv k o => rfl

/-- Filtering `Log.Commit` events with a predicate that ignores `Apply`
events yields nothing. -/
theorem Log.Commit_evs_filter (l : Log) (pred : Ev → Bool)
    (hap : ∀ v op, pred (Ev.applyEv v op) = false) :
    (l.Commit).evs.filter pred = [] := by
  unfold Log.Commit
  simp only
  split
  · rfl
  · split
    · rfl
    · split <;> simp [hap]

/-- Three scheduled faults make all three prepare attempts fail. -/
theorem retryPrepare_three_faults (w : World) (p : LogPayload)
    (h : w.faults.take 3 = [true, true, true]) :
    retryPrepare 3 w p =
      ⟨⟨w.loc, w.peerLog, w.faults.drop 3⟩,
       [Ev.rpcEv .prepareK .fail, Ev.rpcEv .prepareK .fail, Ev.rpcEv .prepareK .fail],
       false⟩ := by
  obtain ⟨loc, plog, fs⟩ := w
  simp only at h ⊢
  cases fs with
  | nil => simp at h
  | cons a fs1 =>
      cases fs1 with
      | nil => simp at h
      | cons b fs2 =>
          cases fs2 with
          | nil => simp at h
          | cons c rest =>
              simp only [List.take, List.cons.injEq] at h
              obtain ⟨ha, hb, hc, -⟩ := h
              subst ha
              subst hb
              subst hc
              rfl

/-- The peer-prepare phase under three scheduled faults: three failed
attempts, peer marked out of sync, local log untouched. -/
theorem doPeerPreparePhase_three_faults (d : Doer) (w : World) (p : LogPayload)
    (hs : w.peerLog.isSome = true) (hd : d.peerInSync = true)
    (hf : w.faults.take 3 = [true, true, true]) :
    doPeerPreparePhase d w p =
      ⟨⟨false⟩, ⟨w.loc, w.peerLog, w.faults.drop 3⟩,
       [Ev.rpcEv .prepareK .fail, Ev.rpcEv .prepareK .fail, Ev.rpcEv .prepareK .fail]⟩ := by
  unfold doPeerPreparePhase
  rw [hs, hd]
  simp only [Bool.and_self, if_true]
  rw [retryPrepare_three_faults w p hf]
  rfl

/-- The peer-commit phase does nothing when the peer is out of sync. -/
theorem doPeerCommitPhase_out_of_sync (d : Doer) (w : World)
    (hd : d.peerInSync = false) :
    doPeerCommitPhase d w = ⟨d, w, []⟩ := by
  unfold doPeerCommitPhase
  rw [hd]
  simp

/-- A successful `Log.Prepare` under the three preconditions. -/
theorem Log.Prepare_err_none (l : Log) (q : LogPayload)
    (hv : q.version = l.store.committed + 1)
    (hval : l.service.validateOk q.op = true)
    (hp : l.store.prepared = none) :
    (l.Prepare q).err = none := by
  unfold Log.Prepare
  rw [if_neg (by simp [hv]), if_neg (by simp [hval])]
  rw [LogStore.prepare_of_none l.store q.op hp]

/-- Claim C5: peer `Prepare` and peer `Commit` inside `Do` are attempted at
most 3 times; and when the peer is configured and in sync but all three
prepare attempts fail, `Do` marks the peer out of sync, does not roll back
the local prepared record, still performs the local commit, makes no peer
`Commit` attempt, and returns no error. -/
theorem claim5_peer_prepare_retries :
    (∀ (d : Doer) (w : World) (p : LogPayload) (iv : Bool),
       ((Doer.Do d w p iv).t.filter Ev.isPrepAttempt).length ≤ 3 ∧
       ((Doer.Do d w p iv).t.filter Ev.isCommitAttempt).length ≤ 3) ∧
    (∀ (d : Doer) (w : World) (p : LogPayload) (iv : Bool),
       w.peerLog.isSome = true →
       d.peerInSync = true →
       w.faults.take 3 = [true, true, true] →
       w.loc.service.lockOk p.op = true →
       doCommittedVersion w.loc = .ok w.loc.store.committed →
       (iv = true ∨ p.version = w.loc.store.committed + 1) →
       w.loc.service.validateOk p.op = true →
       w.loc.store.prepared = none →
       w.loc.service.applyOk (w.loc.store.committed + 1) p.op = true →
       (Doer.Do d w p iv).t.filter Ev.isPrepAttempt =
         [Ev.rpcEv .prepareK .fail, Ev.rpcEv .prepareK .fail, Ev.rpcEv .prepareK .fail] ∧
       (Doer.Do d w p iv).doer.peerInSync = false ∧
       (Doer.Do d w p iv).err = none ∧
       (Doer.Do d w p iv).world.loc.store.committed = w.loc.store.committed + 1 ∧
       (Doer.Do d w p iv).t.filter Ev.isCommitAttempt = []) := by
  constructor
  · -- general retry bounds
    intro d w p iv
    have hple : ∀ (d2 : Doer) (w2 : World) (q2 : LogPayload),
        ((doPeerPreparePhase d2 w2 q2).t.filter Ev.isPrepAttempt).length ≤ 3 :=
      fun d2 w2 q2 =>
        Nat.le_trans (List.length_filter_le _ _) (doPeerPreparePhase_t_len d2 w2 q2)
    have hpce : ∀ (d2 : Doer) (w2 : World),
        (doPeerCommitPhase d2 w2).t.filter Ev.isPrepAttempt = [] := by
      intro d2 w2
      rw [List.filter_eq_nil_iff]
      intro e he
      simp [Ev.commit_not_prep e (doPeerCommitPhase_t _ _ e he)]
    have hcle : ∀ (d2 : Doer) (w2 : World),
        ((doPeerCommitPhase d2 w2).t.filter Ev.isCommitAttempt).length ≤ 3 :=
      fun d2 w2 =>
        Nat.le_trans (List.length_filter_le _ _) (doPeerCommitPhase_t_len d2 w2)
    have hppe : ∀ (d2 : Doer) (w2 : World) (q2 : LogPayload),
        (doPeerPreparePhase d2 w2 q2).t.filter Ev.isCommitAttempt = [] := by
      intro d2 w2 q2
      rw [List.filter_eq_nil_iff]
      intro e he
      simp [Ev.prep_not_commit e (doPeerPreparePhase_t _ _ _ e he)]
    have hcf : ∀ (l2 : Log), (l2.Commit).evs.filter Ev.isPrepAttempt = [] :=
      fun l2 => Log.Commit_evs_filter l2 Ev.isPrepAttempt (fun _ _ => rfl)
    have hcf2 : ∀ (l2 : Log), (l2.Commit).evs.filter Ev.isCommitAttempt = [] :=
      fun l2 => Log.Commit_evs_filter l2 Ev.isCommitAttempt (fun _ _ => rfl)
    unfold Doer.Do
    cases hlock : w.loc.LockResources p.op with
    | some e => simp
    | none =>
        cases hcv : doCommittedVersion w.loc with
        | error e => simp
        | ok cv =>
            simp only
            cases hpe : (w.loc.Prepare (if iv then { p with version := cv + 1 } else p)).err with
            | some e => simp
            | none =>
                simp only
                cases hce : ((doPeerPreparePhase d
                    { w with loc := (w.loc.Prepare
                        (if iv then { p with version := cv + 1 } else p)).log }
                    (if iv then { p with version := cv + 1 } else p)).w.loc.Commit).err with
                | some e =>
                    simp only [List.filter_append]
                    constructor
                    · simp only [hcf, List.append_nil]
                      exact hple _ _ _
                    · simp only [hcf2, hppe, List.nil_append]
                      simp
                | none =>
                    simp only [List.filter_append]
                    constructor
                    · simp only [hcf, hpce, List.append_nil]
                      exact hple _ _ _
                    · simp only [hcf2, hppe, List.nil_append, List.append_nil]
                      exact Nat.le_trans (List.length_filter_le _ _) (doPeerCommitPhase_t_len _ _)
  · -- the all-attempts-fail scenario
    intro d w p iv hs hd hf hlk hcv hver hval hprep happ
    have hlockN : w.loc.LockResources p.op = none := by
      simp [Log.LockResources, hlk]
    unfold Doer.Do
    simp only [hlockN, hcv]
    set q : LogPayload := if iv then { p with version := w.loc.store.committed + 1 } else p
      with hqdef
    have hqop : q.op = p.op := by
      rw [hqdef]; cases iv <;> rfl
    have hqv : q.version = w.loc.store.committed + 1 := by
      rw [hqdef]
      cases hiv : iv
      · rcases hver with hver | hver
        · rw [hiv] at hver; cases hver
        · simpa using hver
      · simp
    have hpe : (w.loc.Prepare q).err = none := by
      apply Log.Prepare_err_none w.loc q hqv _ hprep
      rw [hqop]
      exact hval
    simp only [hpe]
    rw [doPeerPreparePhase_three_faults d
      ⟨(w.loc.Prepare q).log, w.peerLog, w.faults⟩ q hs hd hf]
    simp only
    rw [Log.Prepare_ok_shape w.loc q hpe]
    rw [Log.Commit_after_prepare]
    have happq : w.loc.service.applyOk (w.loc.store.committed + 1) q.op = true := by
      rw [hqop]; exact happ
    simp only [happq, if_true]
    rw [doPeerCommitPhase_out_of_sync ⟨false⟩ _ rfl]
    simp only [List.filter_append]
    refine ⟨?_, trivial, trivial, trivial, ?_⟩
    · simp [Ev.isPrepAttempt, Ev.isApply]
    · simp [Ev.isCommitAttempt, Ev.isApply]

/-- Witness for C4: a successful solo `Do` on `soloWorld` bumps committed
from 1 to 2 and applies exactly once. -/
theorem claim4_witness :
    (Doer.Do ⟨true⟩ soloWorld ⟨0, opB⟩ true).err = none ∧
    (Doer.Do ⟨true⟩ soloWorld ⟨0, opB⟩ true).world.loc.store.committed =
      soloWorld.loc.store.committed + 1 ∧
    (Doer.Do ⟨true⟩ soloWorld ⟨0, opB⟩ true).t.filter Ev.isApply =
      [Ev.applyEv (soloWorld.loc.store.committed + 1) opB] :=
  ⟨rfl, claim4_do_success_applies_once ⟨true⟩ soloWorld ⟨0, opB⟩ true rfl⟩

/-- Witness for C5: on `threeFaultWorld` all three peer prepare attempts
fail, the peer is marked out of sync, the local commit still succeeds, and
no peer commit is attempted. -/
theorem claim5_witness :
    (Doer.Do ⟨true⟩ threeFaultWorld ⟨0, opA⟩ true).t.filter Ev.isPrepAttempt =
      [Ev.rpcEv .prepareK .fail, Ev.rpcEv .prepareK .fail, Ev.rpcEv .prepareK .fail] ∧
    (Doer.Do ⟨true⟩ threeFaultWorld ⟨0, opA⟩ true).doer.peerInSync = false ∧
    (Doer.Do ⟨true⟩ threeFaultWorld ⟨0, opA⟩ true).err = none ∧
    (Doer.Do ⟨true⟩ threeFaultWorld ⟨0, opA⟩ true).world.loc.store.committed =
      threeFaultWorld.loc.store.committed + 1 ∧
    (Doer.Do ⟨true⟩ threeFaultWorld ⟨0, opA⟩ true).t.filter Ev.isCommitAttempt = [] :=
  claim5_peer_prepare_retries.2 ⟨true⟩ threeFaultWorld ⟨0, opA⟩ true rfl rfl rfl rfl rfl
    (Or.inl rfl) rfl rfl rfl

/-! ## Machinery for the startup-reconciliation claim (C3) -/

/-- Dropping a fault token preserves the local log. -/
theorem World.dropFault_loc (w : World) : w.dropFault.loc = w.loc := rfl

/-- Dropping a fault token preserves the peer log. -/
theorem World.dropFault_peerLog (w : World) : w.dropFault.peerLog = w.peerLog := rfl

/-- An `rpcEv` is a failed RPC exactly when its outcome is `fail`. -/
theorem Ev.isRpcFail_rpcEv (k : RpcKind) (o : Outcome) :
    (Ev.rpcEv k o).isRpcFail = (o == .fail) := by
  cases o <;> rfl

/-- A `Record` success carries the requested version. -/
theorem Log.Record_ok_version (l : Log) (v : Nat) (q : LogPayload)
    (h : l.Record v = .ok q) : q.version = v := by
  unfold Log.Record at h
  cases hg : l.store.get v <;> rw [hg] at h
  · cases h
  · cases h
    rfl

/-- A `Prepared` success carries the prepared version. -/
theorem Log.Prepared_ok_version (l : Log) (q : LogPayload)
    (h : l.Prepared = .ok q) : l.store.prepared = some q.version := by
  unfold Log.Prepared at h
  cases hp : l.store.prepared with
  | none => rw [hp] at h; cases h
  | some v =>
      rw [hp] at h
      simp only at h
      cases hg : l.store.get v <;> rw [hg] at h
      · cases h
      · cases h
        rfl

/-- A 404 from `Prepared` means no prepared record. -/
theorem Log.Prepared_404 (l : Log) (e : LogError)
    (h : l.Prepared = .error e) (h4 : e.statusCode = 404) :
    l.store.prepared = none := by
  unfold Log.Prepared at h
  cases hp : l.store.prepared with
  | none => rfl
  | some v =>
      rw [hp] at h
      simp only at h
      cases hg : l.store.get v <;> rw [hg] at h
      · cases h; cases h4
      · cases h

/-- A 404 from `Committed` means nothing committed. -/
theorem Log.Committed_404 (l : Log) (e : LogError)
    (h : l.Committed = .error e) (h4 : e.statusCode = 404) :
    l.store.committed = 0 := by
  unfold Log.Committed at h
  split at h
  · assumption
  · cases hg : l.store.get l.store.committed <;> rw [hg] at h
    · cases h; cases h4
    · cases h

/-- A successful `Prepare` implies the version precondition held. -/
theorem Log.Prepare_err_none_version (l : Log) (q : LogPayload)
    (h : (l.Prepare q).err = none) : q.version = l.store.committed + 1 := by
  unfold Log.Prepare at h
  by_cases hv : q.version ≠ l.store.committed + 1
  · rw [if_pos hv] at h
    cases h
  · push_neg at hv
    exact hv

/-- The `Commit` trace is empty or a single `Apply` invocation. -/
theorem Log.Commit_evs_shape (l : Log) :
    (l.Commit).evs = [] ∨ ∃ v op, (l.Commit).evs = [Ev.applyEv v op] := by
  unfold Log.Commit
  simp only
  split
  · exact Or.inl rfl
  · split
    · exact Or.inl rfl
    · split <;> exact Or.inr ⟨_, _, rfl⟩

/-- `rpcCommitted` only consumes a fault token. -/
theorem rpcCommitted_w (w : World) : (rpcCommitted w).w = w.dropFault := rfl

/-- The `rpcCommitted` trace is its single event. -/
theorem rpcCommitted_t (w : World) :
    (rpcCommitted w).t = [Ev.rpcEv .committedK (rpcCommitted w).r.outcome] := rfl

/-- A successful `rpcCommitted` reports the peer's committed version. -/
theorem rpcCommitted_ok_committed (w : World) (pl : Log) (p : LogPayload)
    (hpl : w.peerLog = some pl) (h : (rpcCommitted w).r = .ok p) :
    pl.store.committed = p.version := by
  unfold rpcCommitted at h
  simp only [World.dropFault_peerLog, hpl] at h
  by_cases hf : w.nextFault = true
  · rw [if_pos hf] at h
    cases h
  · rw [if_neg hf] at h
    cases hc : pl.Committed with
    | ok q =>
        rw [hc] at h
        simp only at h
        cases h
        exact (Log.Committed_ok_version pl _ hc).symm
    | error e =>
        rw [hc] at h
        simp only at h
        by_cases h4 : e.statusCode = 404
        · rw [if_pos h4] at h
          cases h
        · rw [if_neg h4] at h
          cases h

/-- A not-found `rpcCommitted` means the peer has nothing committed. -/
theorem rpcCommitted_notFound_committed (w : World) (pl : Log)
    (hpl : w.peerLog = some pl) (h : (rpcCommitted w).r = .notFound) :
    pl.store.committed = 0 := by
  unfold rpcCommitted at h
  simp only [World.dropFault_peerLog, hpl] at h
  by_cases hf : w.nextFault = true
  · rw [if_pos hf] at h
    cases h
  · rw [if_neg hf] at h
    cases hc : pl.Committed with
    | ok q => rw [hc] at h; simp only at h; cases h
    | error e =>
        rw [hc] at h
        simp only at h
        by_cases h4 : e.statusCode = 404
        · exact Log.Committed_404 pl e hc h4
        · rw [if_neg h4] at h
          cases h

/-- `rpcPrepared` only consumes a fault token. -/
theorem rpcPrepared_w (w : World) : (rpcPrepared w).w = w.dropFault := rfl

/-- The `rpcPrepared` trace is its single event. -/
theorem rpcPrepared_t (w : World) :
    (rpcPrepared w).t = [Ev.rpcEv .preparedK (rpcPrepared w).r.outcome] := rfl

/-- A successful `rpcPrepared` reports the peer's prepared version. -/
theorem rpcPrepared_ok_prepared (w : World) (pl : Log) (p : LogPayload)
    (hpl : w.peerLog = some pl) (h : (rpcPrepared w).r = .ok p) :
    pl.store.prepared = some p.version := by
  unfold rpcPrepared at h
  simp only [World.dropFault_peerLog, hpl] at h
  by_cases hf : w.nextFault = true
  · rw [if_pos hf] at h
    cases h
  · rw [if_neg hf] at h
    cases hc : pl.Prepared with
    | ok q =>
        rw [hc] at h
        simp only at h
        cases h
        exact Log.Prepared_ok_version pl _ hc
    | error e =>
        rw [hc] at h
        simp only at h
        by_cases h4 : e.statusCode = 404
        · rw [if_pos h4] at h
          cases h
        · rw [if_neg h4] at h
          cases h

/-- A not-found `rpcPrepared` means the peer has no prepared record. -/
theorem rpcPrepared_notFound_prepared (w : World) (pl : Log)
    (hpl : w.peerLog = some pl) (h : (rpcPrepared w).r = .notFound) :
    pl.store.prepared = none := by
  unfold rpcPrepared at h
  simp only [World.dropFault_peerLog, hpl] at h
  by_cases hf : w.nextFault = true
  · rw [if_pos hf] at h
    cases h
  · rw [if_neg hf] at h
    cases hc : pl.Prepared with
    | ok q => rw [hc] at h; simp only at h; cases h
    | error e =>
        rw [hc] at h
        simp only at h
        by_cases h4 : e.statusCode = 404
        · exact Log.Prepared_404 pl e hc h4
        · rw [if_neg h4] at h
          cases h

/-- Case analysis of `rpcPrepare`: either it fails with the fail event, or
it succeeds, performing the remote prepare. -/
theorem rpcPrepare_cases (w : World) (p : LogPayload) :
    ((rpcPrepare w p).ok = false ∧ (rpcPrepare w p).t = [Ev.rpcEv .prepareK .fail]) ∨
    ((rpcPrepare w p).ok = true ∧ (rpcPrepare w p).t = [Ev.rpcEv .prepareK .ok] ∧
     ∃ pl, w.peerLog = some pl ∧ (pl.Prepare p).err = none ∧
       (rpcPrepare w p).w = ⟨w.loc, some (pl.Prepare p).log, w.faults.tail⟩) := by
  unfold rpcPrepare
  simp only
  by_cases hf : w.nextFault = true
  · rw [if_pos hf]
    exact Or.inl ⟨rfl, rfl⟩
  · rw [if_neg hf]
    cases hpl : w.dropFault.peerLog with
    | none => exact Or.inl ⟨rfl, rfl⟩
    | some pl =>
        cases hpe : (pl.Prepare p).err with
        | some e => exact Or.inl ⟨by simp [hpe], by simp [hpe]⟩
        | none =>
            refine Or.inr ⟨by simp [hpe], by simp [hpe], pl, ?_, hpe, ?_⟩
            · rw [← World.dropFault_peerLog w]
              exact hpl
            · simp [hpe, World.dropFault]

/-- Case analysis of `rpcCommit`. -/
theorem rpcCommit_cases (w : World) :
    ((rpcCommit w).ok = false ∧ (rpcCommit w).t = [Ev.rpcEv .commitK .fail]) ∨
    ((rpcCommit w).ok = true ∧ (rpcCommit w).t = [Ev.rpcEv .commitK .ok] ∧
     ∃ pl, w.peerLog = some pl ∧ (pl.Commit).err = none ∧
       (rpcCommit w).w = ⟨w.loc, some (pl.Commit).log, w.faults.tail⟩) := by
  unfold rpcCommit
  simp only
  by_cases hf : w.nextFault = true
  · rw [if_pos hf]
    exact Or.inl ⟨rfl, rfl⟩
  · rw [if_neg hf]
    cases hpl : w.dropFault.peerLog with
    | none => exact Or.inl ⟨rfl, rfl⟩
    | some pl =>
        cases hce : (pl.Commit).err with
        | some e => exact Or.inl ⟨by simp [hce], by simp [hce]⟩
        | none =>
            refine Or.inr ⟨by simp [hce], by simp [hce], pl, ?_, hce, ?_⟩
            · rw [← World.dropFault_peerLog w]
              exact hpl
            · simp [hce, World.dropFault]

/-- Case analysis of `rpcRollback`. -/
theorem rpcRollback_cases (w : World) :
    ((rpcRollback w).ok = false ∧ (rpcRollback w).t = [Ev.rpcEv .rollbackK .fail]) ∨
    ((rpcRollback w).ok = true ∧ (rpcRollback w).t = [Ev.rpcEv .rollbackK .ok] ∧
     ∃ pl, w.peerLog = some pl ∧
       (rpcRollback w).w = ⟨w.loc, some (pl.Rollback).log, w.faults.tail⟩) := by
  unfold rpcRollback
  simp only
  by_cases hf : w.nextFault = true
  · rw [if_pos hf]
    exact Or.inl ⟨rfl, rfl⟩
  · rw [if_neg hf]
    cases hpl : w.dropFault.peerLog with
    | none => exact Or.inl ⟨rfl, rfl⟩
    | some pl =>
        refine Or.inr ⟨by simp, by simp, pl, ?_, ?_⟩
        · rw [← World.dropFault_peerLog w]
          exact hpl
        · simp [World.dropFault]

/-- Case analysis of `rpcGetRecord`: it never returns not-found. -/
theorem rpcGetRecord_cases (w : World) (v : Nat) :
    ((rpcGetRecord w v).r = .fail ∧ (rpcGetRecord w v).t = [Ev.rpcEv .getRecordK .fail]) ∨
    (∃ q, (rpcGetRecord w v).r = .ok q ∧ q.version = v ∧
       (rpcGetRecord w v).t = [Ev.rpcEv .getRecordK .ok] ∧
       (rpcGetRecord w v).w = w.dropFault ∧
       ∃ pl, w.peerLog = some pl ∧ pl.Record v = .ok q) := by
  unfold rpcGetRecord
  simp only
  by_cases hf : w.nextFault = true
  · rw [if_pos hf]
    exact Or.inl ⟨rfl, rfl⟩
  · rw [if_neg hf]
    cases hpl : w.dropFault.peerLog with
    | none => exact Or.inl ⟨rfl, rfl⟩
    | some pl =>
        cases hr : pl.Record v with
        | ok q =>
            refine Or.inr ⟨q, by simp [hr], Log.Record_ok_version pl v q hr,
              by simp [hr], by simp [hr], pl, ?_, hr⟩
            rw [← World.dropFault_peerLog w]
            exact hpl
        | error e => exact Or.inl ⟨by simp [hr], by simp [hr]⟩

/-- The push loop of `NewDoer` under a failure-free trace: it completes,
leaves the local log untouched, and brings the peer's committed version to
`lcv` with no prepared record (or leaves the peer untouched when there is
nothing to push). -/
theorem pushLoop_ok (fuel : Nat) (w : World) (i lcv : Nat) (pl : Log)
    (hpl : w.peerLog = some pl)
    (hfuel : fuel = lcv - i) (hle : i ≤ lcv)
    (hnf : ((pushLoop fuel w i lcv).t.all (fun e => !e.isFailEv)) = true) :
    (pushLoop fuel w i lcv).ok = true ∧
    (pushLoop fuel w i lcv).w.loc = w.loc ∧
    ∃ pl2, (pushLoop fuel w i lcv).w.peerLog = some pl2 ∧
      (i = lcv → pl2 = pl) ∧
      (i < lcv → pl2.store.committed = lcv ∧ pl2.store.prepared = none) := by
  induction fuel generalizing w i pl with
  | zero =>
      have hi : i = lcv := by omega
      subst hi
      exact ⟨rfl, rfl, pl, hpl, fun _ => rfl, fun hlt => absurd hlt (Nat.lt_irrefl i)⟩
  | succ fuel ih =>
      by_cases hi : i = lcv
      · have hred : pushLoop (fuel + 1) w i lcv = ⟨w, [], true⟩ := by
          unfold pushLoop
          rw [if_pos hi]
        rw [hred]
        subst hi
        exact ⟨rfl, rfl, pl, hpl, fun _ => rfl, fun hlt => absurd hlt (Nat.lt_irrefl i)⟩
      · have hlt : i < lcv := Nat.lt_of_le_of_ne hle hi
        unfold pushLoop at hnf ⊢
        rw [if_neg hi] at hnf ⊢
        simp only at hnf ⊢
        cases hrec : w.loc.Record (i + 1) with
        | error e =>
            rw [hrec] at hnf
            simp [Ev.isFailEv, Ev.isLocFail] at hnf
        | ok payload =>
            rw [hrec] at hnf
            simp only at hnf ⊢
            rcases rpcPrepare_cases w payload with ⟨hok, ht⟩ | ⟨hok, ht, pl1, hpl1, hpe, hw⟩
            · rw [hok, ht] at hnf
              simp [Ev.isFailEv, Ev.isRpcFail] at hnf
            · rw [hpl] at hpl1
              injection hpl1 with hpl1
              subst hpl1
              rw [hok] at hnf ⊢
              simp only [if_true] at hnf ⊢
              rcases rpcCommit_cases (rpcPrepare w payload).w with
                ⟨hok2, ht2⟩ | ⟨hok2, ht2, pl2, hpl2, hce, hw2⟩
              · rw [hok2, ht2] at hnf
                simp [Ev.isFailEv, Ev.isRpcFail] at hnf
              · rw [hw] at hpl2
                simp only at hpl2
                injection hpl2 with hpl2
                subst hpl2
                rw [hok2] at hnf ⊢
                simp only [if_true] at hnf ⊢
                -- facts about the versions
                have hv1 : payload.version = i + 1 :=
                  Log.Record_ok_version w.loc (i + 1) payload hrec
                have hv2 : payload.version = pl.store.committed + 1 :=
                  Log.Prepare_err_none_version pl payload hpe
                have hcomm : pl.store.committed = i := by omega
                have hshape := Log.Prepare_ok_shape pl payload hpe
                -- the committed peer log after this iteration
                rw [hshape] at hw2
                rw [Log.Commit_after_prepare] at hw2
                simp only at hw2
                -- the recursive call
                have hplNew : (rpcCommit (rpcPrepare w payload).w).w.peerLog =
                    some ⟨pl.service, pl.applyCommits,
                      ⟨pl.store.setRecord (pl.store.committed + 1) payload.op,
                       pl.store.committed + 1, none⟩⟩ := by
                  rw [hw2]
                have hnfrest : ((pushLoop fuel (rpcCommit (rpcPrepare w payload).w).w
                    (i + 1) lcv).t.all (fun e => !e.isFailEv)) = true := by
                  rw [List.all_eq_true] at hnf ⊢
                  intro e he
                  exact hnf e (by simp [he])
                obtain ⟨hro, hrl, pl3, hp3, h3eq, h3lt⟩ :=
                  ih (rpcCommit (rpcPrepare w payload).w).w (i + 1)
                    ⟨pl.service, pl.applyCommits,
                      ⟨pl.store.setRecord (pl.store.committed + 1) payload.op,
                       pl.store.committed + 1, none⟩⟩
                    hplNew (by omega) (by omega) hnfrest
                refine ⟨hro, ?_, pl3, hp3, fun h => absurd h hi, fun _ => ?_⟩
                · rw [hrl, hw2]
                  simp only
                  rw [hw]
                · by_cases h2e : i + 1 = lcv
                  · have h3n := h3eq h2e
                    subst h3n
                    refine ⟨?_, rfl⟩
                    show pl.store.committed + 1 = lcv
                    omega
                  · exact h3lt (by omega)

/-- The pull loop of `NewDoer` under a failure-free trace: it completes,
leaves the peer untouched, and brings the local committed version to `pcv`
with no prepared record (or leaves the local log untouched when there is
nothing to pull). -/
theorem pullLoop_ok (fuel : Nat) (w : World) (i pcv : Nat) (pl : Log)
    (hpl : w.peerLog = some pl)
    (hfuel : fuel = pcv - i) (hle : i ≤ pcv)
    (hnf : ((pullLoop fuel w i pcv).t.all (fun e => !e.isFailEv)) = true) :
    (pullLoop fuel w i pcv).ok = true ∧
    (pullLoop fuel w i pcv).w.peerLog = some pl ∧
    (i = pcv → (pullLoop fuel w i pcv).w.loc = w.loc) ∧
    (i < pcv → (pullLoop fuel w i pcv).w.loc.store.committed = pcv ∧
       (pullLoop fuel w i pcv).w.loc.store.prepared = none ∧
       (pullLoop fuel w i pcv).w.loc.store.wf = true) := by
  induction fuel generalizing w i pl with
  | zero =>
      have hi : i = pcv := by omega
      subst hi
      exact ⟨rfl, hpl, fun _ => rfl, fun hlt => absurd hlt (Nat.lt_irrefl i)⟩
  | succ fuel ih =>
      by_cases hi : i = pcv
      · have hred : pullLoop (fuel + 1) w i pcv = ⟨w, [], true⟩ := by
          unfold pullLoop
          rw [if_pos hi]
        rw [hred]
        subst hi
        exact ⟨rfl, hpl, fun _ => rfl, fun hlt => absurd hlt (Nat.lt_irrefl i)⟩
      · have hlt : i < pcv := Nat.lt_of_le_of_ne hle hi
        unfold pullLoop at hnf ⊢
        rw [if_neg hi] at hnf ⊢
        simp only at hnf ⊢
        rcases rpcGetRecord_cases w (i + 1) with
          ⟨hr, ht⟩ | ⟨q, hr, hv, ht, hwq, pl1, hpl1, hrec⟩
        · rw [hr, ht] at hnf
          simp [Ev.isFailEv, Ev.isRpcFail] at hnf
        · rw [hr] at hnf ⊢
          simp only at hnf ⊢
          rw [hwq] at hnf ⊢
          rw [World.dropFault_loc] at hnf ⊢
          cases hpe : (w.loc.Prepare q).err with
          | some e =>
              rw [hpe, ht] at hnf
              simp [Ev.isFailEv, Ev.isLocFail] at hnf
          | none =>
              rw [hpe] at hnf
              simp only at hnf ⊢
              have hv2 : q.version = w.loc.store.committed + 1 :=
                Log.Prepare_err_none_version w.loc q hpe
              have hcomm : w.loc.store.committed = i := by omega
              have hshape := Log.Prepare_ok_shape w.loc q hpe
              rw [hshape] at hnf ⊢
              rw [Log.Commit_after_prepare] at hnf ⊢
              simp only at hnf ⊢
              cases ha : w.loc.service.applyOk (w.loc.store.committed + 1) q.op with
              | false =>
                  rw [ha] at hnf
                  simp [Ev.isFailEv, Ev.isLocFail, ht] at hnf
              | true =>
                  rw [ha] at hnf
                  simp only [eq_self_iff_true, if_true] at hnf ⊢
                  have hplNew : (⟨⟨w.loc.service, w.loc.applyCommits,
                      ⟨w.loc.store.setRecord (w.loc.store.committed + 1) q.op,
                       w.loc.store.committed + 1, none⟩⟩,
                      w.dropFault.peerLog, w.dropFault.faults⟩ : World).peerLog = some pl := by
                    simp only
                    rw [World.dropFault_peerLog]
                    exact hpl
                  have hnfrest : ((pullLoop fuel
                      ⟨⟨w.loc.service, w.loc.applyCommits,
                        ⟨w.loc.store.setRecord (w.loc.store.committed + 1) q.op,
                         w.loc.store.committed + 1, none⟩⟩,
                        w.dropFault.peerLog, w.dropFault.faults⟩
                      (i + 1) pcv).t.all (fun e => !e.isFailEv)) = true := by
                    rw [List.all_eq_true] at hnf ⊢
                    intro e he
                    exact hnf e (by simp [he])
                  obtain ⟨hro, hrp, h3eq, h3lt⟩ :=
                    ih _ (i + 1) pl hplNew (by omega) (by omega) hnfrest
                  refine ⟨hro, hrp, fun h => absurd h hi, fun _ => ?_⟩
                  by_cases h2e : i + 1 = pcv
                  · have hl := h3eq h2e
                    rw [hl]
                    refine ⟨?_, rfl, ?_⟩
                    · show w.loc.store.committed + 1 = pcv
                      omega
                    · rfl
                  · obtain ⟨hc1, hc2, hc3⟩ := h3lt (by omega)
                    exact ⟨hc1, hc2, hc3⟩

/-- Rolling back preserves the committed version. -/
theorem LogStore.rollback_committed (s : LogStore) :
    s.rollback.committed = s.committed := by
  cases s with
  | mk rs c pr => cases pr <;> rfl

/-- A failure-free trace has no failed local operation. -/
theorem all_not_fail_loc (tr : Trace)
    (h : (tr.all (fun e => !e.isFailEv)) = true) :
    (tr.all (fun e => !e.isLocFail)) = true := by
  rw [List.all_eq_true] at h ⊢
  intro e he
  have h2 := h e he
  simp only [Ev.isFailEv, Bool.not_eq_true', Bool.or_eq_false_iff] at h2
  simp [h2.2]

/-- The `ndFinish` trace extends its input trace. -/
theorem ndFinish_t (w : World) (t : Trace) (b : Bool) :
    ∃ rest, (ndFinish w t b).t = t ++ rest := by
  unfold ndFinish
  simp only
  cases hc : (w.loc.Commit).err with
  | none => exact ⟨w.loc.Commit.evs ++ [Ev.locEv .commitK .ok], by simp⟩
  | some e => exact ⟨w.loc.Commit.evs ++ [Ev.locEv .commitK .fail], by simp⟩

/-- `ndFinish` succeeds whenever its trace shows no failed local commit. -/
theorem ndFinish_res (w : World) (t : Trace) (b : Bool)
    (hnf : ((ndFinish w t b).t.all (fun e => !e.isLocFail)) = true) :
    (ndFinish w t b).res = some ⟨b⟩ := by
  unfold ndFinish at hnf ⊢
  simp only at hnf ⊢
  cases hc : (w.loc.Commit).err with
  | none => rfl
  | some e =>
      rw [hc] at hnf
      simp [Ev.isLocFail] at hnf

/-- `ndFinish` never touches the peer and only commits the local store. -/
theorem ndFinish_state (w : World) (t : Trace) (b : Bool) :
    (ndFinish w t b).w.peerLog = w.peerLog ∧
    (ndFinish w t b).w.loc.store = w.loc.store.commit := by
  unfold ndFinish
  simp only
  cases hc : (w.loc.Commit).err <;>
    simp [hc, Log.Commit_log]

/-- The both-sides rollback step under a failure-free trace. -/
theorem ndRollbackBoth_ok (w : World) (t : Trace) (lpv ppv : Nat) (pl : Log)
    (hpl : w.peerLog = some pl)
    (hloc : lpv = 0 → w.loc.store.prepared = none)
    (hpeer : ppv = 0 → pl.store.prepared = none)
    (hnf : ((ndRollbackBoth w t lpv ppv).t.all (fun e => !e.isFailEv)) = true) :
    ∃ pl2, (ndRollbackBoth w t lpv ppv).w.peerLog = some pl2 ∧
      (ndRollbackBoth w t lpv ppv).res = some ⟨true⟩ ∧
      (ndRollbackBoth w t lpv ppv).w.loc.store.committed = w.loc.store.committed ∧
      (ndRollbackBoth w t lpv ppv).w.loc.store.prepared = none ∧
      pl2.store.committed = pl.store.committed ∧
      pl2.store.prepared = none := by
  unfold ndRollbackBoth at hnf ⊢
  by_cases hg : 0 < lpv ∨ 0 < ppv
  · rw [if_pos hg] at hnf ⊢
    simp only at hnf ⊢
    rcases rpcRollback_cases ({ w with loc := (w.loc.Rollback).log }) with
      ⟨hok, ht⟩ | ⟨hok, ht, pl1, hpl1, hw1⟩
    · rw [hok] at hnf
      simp only [Bool.false_eq_true, if_false] at hnf
      rw [ht] at hnf
      obtain ⟨rest, hrt⟩ := ndFinish_t
        (rpcRollback { w with loc := (w.loc.Rollback).log }).w
        ((t ++ [Ev.locEv .rollbackK .ok]) ++ [Ev.rpcEv .rollbackK .fail]) false
      rw [hrt, List.all_eq_true] at hnf
      have hbad := hnf (Ev.rpcEv .rollbackK .fail) (by simp)
      simp [Ev.isFailEv, Ev.isRpcFail] at hbad
    · have hpl1w : pl = pl1 := by
        simp only at hpl1
        rw [hpl] at hpl1
        exact Option.some.inj hpl1
      subst hpl1w
      rw [hok] at hnf ⊢
      simp only [if_true] at hnf ⊢
      obtain ⟨hfs1, hfs2⟩ := ndFinish_state (rpcRollback { w with loc := (w.loc.Rollback).log }).w
        ((t ++ [Ev.locEv .rollbackK .ok]) ++ (rpcRollback { w with loc := (w.loc.Rollback).log }).t) true
      refine ⟨(pl.Rollback).log, ?_, ?_, ?_, ?_, ?_, ?_⟩
      · rw [hfs1, hw1]
      · exact ndFinish_res _ _ true (all_not_fail_loc _ hnf)
      · rw [hfs2, hw1]
        simp only [Log.Rollback]
        rw [LogStore.commit_of_none _ (LogStore.rollback_prepared w.loc.store)]
        exact LogStore.rollback_committed w.loc.store
      · rw [hfs2, hw1]
        simp only [Log.Rollback]
        rw [LogStore.commit_of_none _ (LogStore.rollback_prepared w.loc.store)]
        exact LogStore.rollback_prepared w.loc.store
      · simp only [Log.Rollback]
        exact LogStore.rollback_committed pl.store
      · simp only [Log.Rollback]
        exact LogStore.rollback_prepared pl.store
  · rw [if_neg hg] at hnf ⊢
    push_neg at hg
    have hlpv : lpv = 0 := by omega
    have hppv : ppv = 0 := by omega
    obtain ⟨hfs1, hfs2⟩ := ndFinish_state w t true
    refine ⟨pl, ?_, ?_, ?_, ?_, rfl, hpeer hppv⟩
    · rw [hfs1, hpl]
    · exact ndFinish_res _ _ true (all_not_fail_loc _ hnf)
    · rw [hfs2, LogStore.commit_of_none _ (hloc hlpv)]
    · rw [hfs2, LogStore.commit_of_none _ (hloc hlpv)]
      exact hloc hlpv

/-- With the invariant, a present prepared version is `committed + 1`. -/
theorem LogStore.wf_some (s : LogStore) (v : Nat)
    (hw : s.wf = true) (hp : s.prepared = some v) : v = s.committed + 1 := by
  unfold LogStore.wf at hw
  rw [hp] at hw
  simpa using hw

/-- The `ndRollbackBoth` trace extends its input trace. -/
theorem ndRollbackBoth_t (w : World) (t : Trace) (lpv ppv : Nat) :
    ∃ rest, (ndRollbackBoth w t lpv ppv).t = t ++ rest := by
  unfold ndRollbackBoth
  by_cases hg : 0 < lpv ∨ 0 < ppv
  · rw [if_pos hg]
    simp only
    rcases rpcRollback_cases ({ w with loc := (w.loc.Rollback).log }) with
      ⟨hok, ht⟩ | ⟨hok, ht, pl1, hpl1, hw1⟩
    · rw [hok]
      simp only [Bool.false_eq_true, if_false]
      obtain ⟨rest, hrt⟩ := ndFinish_t (rpcRollback { w with loc := (w.loc.Rollback).log }).w
        ((t ++ [Ev.locEv .rollbackK .ok]) ++ (rpcRollback { w with loc := (w.loc.Rollback).log }).t)
        false
      exact ⟨[Ev.locEv .rollbackK .ok] ++
        (rpcRollback { w with loc := (w.loc.Rollback).log }).t ++ rest, by rw [hrt]; simp⟩
    · rw [hok]
      simp only [if_true]
      obtain ⟨rest, hrt⟩ := ndFinish_t (rpcRollback { w with loc := (w.loc.Rollback).log }).w
        ((t ++ [Ev.locEv .rollbackK .ok]) ++ (rpcRollback { w with loc := (w.loc.Rollback).log }).t)
        true
      exact ⟨[Ev.locEv .rollbackK .ok] ++
        (rpcRollback { w with loc := (w.loc.Rollback).log }).t ++ rest, by rw [hrt]; simp⟩
  · rw [if_neg hg]
    exact ndFinish_t w t true

/-- The `ndCheckPrepared` trace extends its input trace. -/
theorem ndCheckPrepared_t (w : World) (t : Trace) :
    ∃ rest, (ndCheckPrepared w t).t = t ++ rest := by
  unfold ndCheckPrepared
  simp only
  cases hr : (rpcPrepared w).r with
  | fail =>
      simp only
      obtain ⟨rest, hrt⟩ := ndFinish_t (rpcPrepared w).w (t ++ (rpcPrepared w).t) false
      exact ⟨(rpcPrepared w).t ++ rest, by rw [hrt]; simp⟩
  | notFound =>
      simp only
      cases hlp : (rpcPrepared w).w.loc.Prepared with
      | error e =>
          simp only
          by_cases h4 : e.statusCode = 404
          · rw [if_pos h4]
            obtain ⟨rest, hrt⟩ := ndRollbackBoth_t (rpcPrepared w).w
              (t ++ (rpcPrepared w).t ++ [Ev.locEv .preparedK .notFound]) 0 0
            exact ⟨(rpcPrepared w).t ++ [Ev.locEv .preparedK .notFound] ++ rest,
              by rw [hrt]; simp⟩
          · rw [if_neg h4]
            exact ⟨(rpcPrepared w).t ++ [Ev.locEv .preparedK .fail], by simp⟩
      | ok p2 =>
          simp only
          obtain ⟨rest, hrt⟩ := ndRollbackBoth_t (rpcPrepared w).w
            (t ++ (rpcPrepared w).t ++ [Ev.locEv .preparedK .ok]) p2.version 0
          exact ⟨(rpcPrepared w).t ++ [Ev.locEv .preparedK .ok] ++ rest,
            by rw [hrt]; simp⟩
  | ok p =>
      simp only
      cases hlp : (rpcPrepared w).w.loc.Prepared with
      | error e =>
          simp only
          by_cases h4 : e.statusCode = 404
          · rw [if_pos h4]
            obtain ⟨rest, hrt⟩ := ndRollbackBoth_t (rpcPrepared w).w
              (t ++ (rpcPrepared w).t ++ [Ev.locEv .preparedK .notFound]) 0 p.version
            exact ⟨(rpcPrepared w).t ++ [Ev.locEv .preparedK .notFound] ++ rest,
              by rw [hrt]; simp⟩
          · rw [if_neg h4]
            exact ⟨(rpcPrepared w).t ++ [Ev.locEv .preparedK .fail], by simp⟩
      | ok p2 =>
          simp only
          obtain ⟨rest, hrt⟩ := ndRollbackBoth_t (rpcPrepared w).w
            (t ++ (rpcPrepared w).t ++ [Ev.locEv .preparedK .ok]) p2.version p.version
          exact ⟨(rpcPrepared w).t ++ [Ev.locEv .preparedK .ok] ++ rest,
            by rw [hrt]; simp⟩

/-- The prepared-record check of `NewDoer` under a failure-free trace: it
completes in sync, preserves both committed versions, and clears both
prepared records. -/
theorem ndCheckPrepared_ok (w : World) (t : Trace) (pl : Log)
    (hpl : w.peerLog = some pl)
    (hlw : w.loc.store.wf = true)
    (hpw : pl.store.wf = true)
    (hnf : ((ndCheckPrepared w t).t.all (fun e => !e.isFailEv)) = true) :
    ∃ pl2, (ndCheckPrepared w t).w.peerLog = some pl2 ∧
      (ndCheckPrepared w t).res = some ⟨true⟩ ∧
      (ndCheckPrepared w t).w.loc.store.committed = w.loc.store.committed ∧
      (ndCheckPrepared w t).w.loc.store.prepared = none ∧
      pl2.store.committed = pl.store.committed ∧
      pl2.store.prepared = none := by
  have hplw : (rpcPrepared w).w.peerLog = some pl := by
    rw [rpcPrepared_w, World.dropFault_peerLog]
    exact hpl
  have hlocw : (rpcPrepared w).w.loc = w.loc := by
    rw [rpcPrepared_w, World.dropFault_loc]
  unfold ndCheckPrepared at hnf ⊢
  simp only at hnf ⊢
  cases hr : (rpcPrepared w).r with
  | fail =>
      rw [hr] at hnf
      simp only at hnf
      have hT : (rpcPrepared w).t = [Ev.rpcEv .preparedK .fail] := by
        rw [rpcPrepared_t, hr]
        rfl
      obtain ⟨rest, hrt⟩ := ndFinish_t (rpcPrepared w).w (t ++ (rpcPrepared w).t) false
      rw [hrt, List.all_eq_true] at hnf
      have hbad := hnf (Ev.rpcEv .preparedK .fail) (by simp [hT])
      simp [Ev.isFailEv, Ev.isRpcFail] at hbad
  | notFound =>
      rw [hr] at hnf
      simp only at hnf ⊢
      have hpeer : (0 : Nat) = 0 → pl.store.prepared = none := fun _ =>
        rpcPrepared_notFound_prepared w pl hpl hr
      cases hlp : (rpcPrepared w).w.loc.Prepared with
      | error e =>
          rw [hlp] at hnf
          simp only at hnf ⊢
          by_cases h4 : e.statusCode = 404
          · rw [if_pos h4] at hnf ⊢
            obtain ⟨pl2, h1, h2, h3, h5, h6, h7⟩ :=
              ndRollbackBoth_ok (rpcPrepared w).w
                (t ++ (rpcPrepared w).t ++ [Ev.locEv .preparedK .notFound]) 0 0 pl
                hplw (fun _ => Log.Prepared_404 (rpcPrepared w).w.loc e hlp h4) hpeer hnf
            refine ⟨pl2, h1, h2, ?_, h5, h6, h7⟩
            rw [h3, hlocw]
          · rw [if_neg h4] at hnf
            rw [List.all_eq_true] at hnf
            have hbad := hnf (Ev.locEv .preparedK .fail) (by simp)
            simp [Ev.isFailEv, Ev.isLocFail] at hbad
      | ok p2 =>
          rw [hlp] at hnf
          simp only at hnf ⊢
          have hpr : (rpcPrepared w).w.loc.store.prepared = some p2.version :=
            Log.Prepared_ok_version _ p2 hlp
          have hloc0 : p2.version = 0 → (rpcPrepared w).w.loc.store.prepared = none := by
            intro h0
            exact absurd (LogStore.wf_some (rpcPrepared w).w.loc.store p2.version
              (by rw [hlocw]; exact hlw) hpr) (by omega)
          obtain ⟨pl2, h1, h2, h3, h5, h6, h7⟩ :=
            ndRollbackBoth_ok (rpcPrepared w).w
              (t ++ (rpcPrepared w).t ++ [Ev.locEv .preparedK .ok]) p2.version 0 pl
              hplw hloc0 hpeer hnf
          refine ⟨pl2, h1, h2, ?_, h5, h6, h7⟩
          rw [h3, hlocw]
  | ok p =>
      rw [hr] at hnf
      simp only at hnf ⊢
      have hpp : pl.store.prepared = some p.version :=
        rpcPrepared_ok_prepared w pl p hpl hr
      have hpeer : p.version = 0 → pl.store.prepared = none := by
        intro h0
        exact absurd (LogStore.wf_some pl.store p.version hpw hpp) (by omega)
      cases hlp : (rpcPrepared w).w.loc.Prepared with
      | error e =>
          rw [hlp] at hnf
          simp only at hnf ⊢
          by_cases h4 : e.statusCode = 404
          · rw [if_pos h4] at hnf ⊢
            obtain ⟨pl2, h1, h2, h3, h5, h6, h7⟩ :=
              ndRollbackBoth_ok (rpcPrepared w).w
                (t ++ (rpcPrepared w).t ++ [Ev.locEv .preparedK .notFound]) 0 p.version pl
                hplw (fun _ => Log.Prepared_404 (rpcPrepared w).w.loc e hlp h4) hpeer hnf
            refine ⟨pl2, h1, h2, ?_, h5, h6, h7⟩
            rw [h3, hlocw]
          · rw [if_neg h4] at hnf
            rw [List.all_eq_true] at hnf
            have hbad := hnf (Ev.locEv .preparedK .fail) (by simp)
            simp [Ev.isFailEv, Ev.isLocFail] at hbad
      | ok p2 =>
          rw [hlp] at hnf
          simp only at hnf ⊢
          have hpr : (rpcPrepared w).w.loc.store.prepared = some p2.version :=
            Log.Prepared_ok_version _ p2 hlp
          have hloc0 : p2.version = 0 → (rpcPrepared w).w.loc.store.prepared = none := by
            intro h0
            exact absurd (LogStore.wf_some (rpcPrepared w).w.loc.store p2.version
              (by rw [hlocw]; exact hlw) hpr) (by omega)
          obtain ⟨pl2, h1, h2, h3, h5, h6, h7⟩ :=
            ndRollbackBoth_ok (rpcPrepared w).w
              (t ++ (rpcPrepared w).t ++ [Ev.locEv .preparedK .ok]) p2.version p.version pl
              hplw hloc0 hpeer hnf
          refine ⟨pl2, h1, h2, ?_, h5, h6, h7⟩
          rw [h3, hlocw]

/-- The middle segment of a failure-free trace is failure-free. -/
theorem trace_all_mid (f : Ev → Bool) (t1 t2 t3 : Trace)
    (h : (((t1 ++ t2) ++ t3).all f) = true) : (t2.all f) = true := by
  rw [List.all_eq_true] at h ⊢
  intro e he
  exact h e (by simp [he])

/-- The committed-version reconciliation of `NewDoer` under a failure-free
trace: it completes in sync, equalizes the committed versions, and clears
both prepared records. -/
theorem ndSyncCommitted_ok (w : World) (t : Trace) (pcv lcv : Nat) (pl : Log)
    (hpl : w.peerLog = some pl)
    (hlw : w.loc.store.wf = true)
    (hpw : pl.store.wf = true)
    (hlcv : w.loc.store.committed = lcv)
    (hpcv : pl.store.committed = pcv)
    (hnf : ((ndSyncCommitted w t pcv lcv).t.all (fun e => !e.isFailEv)) = true) :
    ∃ pl2, (ndSyncCommitted w t pcv lcv).w.peerLog = some pl2 ∧
      (ndSyncCommitted w t pcv lcv).res = some ⟨true⟩ ∧
      (ndSyncCommitted w t pcv lcv).w.loc.store.committed = pl2.store.committed ∧
      (ndSyncCommitted w t pcv lcv).w.loc.store.prepared = none ∧
      pl2.store.prepared = none := by
  unfold ndSyncCommitted at hnf ⊢
  by_cases hle : pcv ≤ lcv
  · rw [if_pos hle] at hnf ⊢
    simp only at hnf ⊢
    have hput : ((pushLoop (lcv - pcv) w pcv lcv).t.all (fun e => !e.isFailEv)) = true := by
      cases hok : (pushLoop (lcv - pcv) w pcv lcv).ok
      · rw [hok] at hnf
        simp only [Bool.false_eq_true, if_false] at hnf
        obtain ⟨rest, hrt⟩ := ndFinish_t (pushLoop (lcv - pcv) w pcv lcv).w
          (t ++ (pushLoop (lcv - pcv) w pcv lcv).t) false
        rw [hrt] at hnf
        exact trace_all_mid _ t _ rest hnf
      · rw [hok] at hnf
        simp only [if_true] at hnf
        obtain ⟨rest, hrt⟩ := ndCheckPrepared_t (pushLoop (lcv - pcv) w pcv lcv).w
          (t ++ (pushLoop (lcv - pcv) w pcv lcv).t)
        rw [hrt] at hnf
        exact trace_all_mid _ t _ rest hnf
    obtain ⟨hpo, hpuloc, pl2, hpupl, hpeq, hplt⟩ :=
      pushLoop_ok (lcv - pcv) w pcv lcv pl hpl rfl hle hput
    rw [hpo] at hnf ⊢
    simp only [if_true] at hnf ⊢
    have hl2w : (pushLoop (lcv - pcv) w pcv lcv).w.loc.store.wf = true := by
      rw [hpuloc]; exact hlw
    have hcl : (pushLoop (lcv - pcv) w pcv lcv).w.loc.store.committed = lcv := by
      rw [hpuloc]; exact hlcv
    have hp2 : pl2.store.committed = lcv ∧ pl2.store.wf = true := by
      by_cases heq : pcv = lcv
      · have h := hpeq heq
        rw [h]
        exact ⟨by rw [hpcv]; exact heq, hpw⟩
      · have hlt := hplt (Nat.lt_of_le_of_ne hle heq)
        exact ⟨hlt.1, LogStore.wf_of_prepared_none _ hlt.2⟩
    obtain ⟨pl3, h1, h2, h3, h5, h6, h7⟩ :=
      ndCheckPrepared_ok (pushLoop (lcv - pcv) w pcv lcv).w
        (t ++ (pushLoop (lcv - pcv) w pcv lcv).t) pl2 hpupl hl2w hp2.2 hnf
    refine ⟨pl3, h1, h2, ?_, h5, h7⟩
    rw [h3, hcl, h6, hp2.1]
  · rw [if_neg hle] at hnf ⊢
    push_neg at hle
    simp only at hnf ⊢
    have hw1pl : (World.mk (w.loc.Rollback).log w.peerLog w.faults).peerLog = some pl := hpl
    have hput : ((pullLoop (pcv - lcv) { w with loc := (w.loc.Rollback).log } lcv pcv).t.all
        (fun e => !e.isFailEv)) = true := by
      cases hok : (pullLoop (pcv - lcv) { w with loc := (w.loc.Rollback).log } lcv pcv).ok
      · rw [hok] at hnf
        simp only [Bool.false_eq_true, if_false] at hnf
        rw [List.all_eq_true] at hnf
        rw [List.all_eq_true]
        intro e he
        exact hnf e (by simp [he])
      · rw [hok] at hnf
        simp only [if_true] at hnf
        obtain ⟨rest, hrt⟩ := ndCheckPrepared_t
          (pullLoop (pcv - lcv) { w with loc := (w.loc.Rollback).log } lcv pcv).w
          ((t ++ [Ev.locEv .rollbackK .ok]) ++
            (pullLoop (pcv - lcv) { w with loc := (w.loc.Rollback).log } lcv pcv).t)
        rw [hrt] at hnf
        exact trace_all_mid _ (t ++ [Ev.locEv .rollbackK .ok]) _ rest hnf
    obtain ⟨hpo, hpupl, hpeq, hplt⟩ :=
      pullLoop_ok (pcv - lcv) { w with loc := (w.loc.Rollback).log } lcv pcv pl hw1pl rfl
        (Nat.le_of_lt hle) hput
    rw [hpo] at hnf ⊢
    simp only [if_true] at hnf ⊢
    obtain ⟨hc1, hc2, hc3⟩ := hplt hle
    obtain ⟨pl3, h1, h2, h3, h5, h6, h7⟩ :=
      ndCheckPrepared_ok (pullLoop (pcv - lcv) { w with loc := (w.loc.Rollback).log } lcv pcv).w
        ((t ++ [Ev.locEv .rollbackK .ok]) ++
          (pullLoop (pcv - lcv) { w with loc := (w.loc.Rollback).log } lcv pcv).t)
        pl hpupl hc3 hpw hnf
    refine ⟨pl3, h1, h2, ?_, h5, h7⟩
    rw [h3, hc1, h6, hpcv]

/-- `NewDoer` with a configured peer under a failure-free run: startup
succeeds with `peerInSync` set, the committed versions agree, and neither
side retains a prepared record. -/
theorem NewDoer_run_ok (w : World) (pl : Log)
    (hpl : w.peerLog = some pl)
    (hlw : w.loc.store.wf = true)
    (hpw : pl.store.wf = true)
    (hnf : ((NewDoer w).t.all (fun e => !e.isFailEv)) = true) :
    ∃ pl2, (NewDoer w).w.peerLog = some pl2 ∧
      (NewDoer w).res = some ⟨true⟩ ∧
      (NewDoer w).w.loc.store.committed = pl2.store.committed ∧
      (NewDoer w).w.loc.store.prepared = none ∧
      pl2.store.prepared = none := by
  have hplw : (rpcCommitted w).w.peerLog = some pl := by
    rw [rpcCommitted_w, World.dropFault_peerLog]
    exact hpl
  have hlocw : (rpcCommitted w).w.loc = w.loc := by
    rw [rpcCommitted_w, World.dropFault_loc]
  unfold NewDoer at hnf ⊢
  rw [hpl] at hnf ⊢
  simp only at hnf ⊢
  cases hr : (rpcCommitted w).r with
  | fail =>
      rw [hr] at hnf
      simp only at hnf
      have hT : (rpcCommitted w).t = [Ev.rpcEv .committedK .fail] := by
        rw [rpcCommitted_t, hr]
        rfl
      obtain ⟨rest, hrt⟩ := ndFinish_t (rpcCommitted w).w (rpcCommitted w).t false
      rw [hrt, List.all_eq_true] at hnf
      have hbad := hnf (Ev.rpcEv .committedK .fail) (by simp [hT])
      simp [Ev.isFailEv, Ev.isRpcFail] at hbad
  | notFound =>
      rw [hr] at hnf
      simp only at hnf ⊢
      have hpc : pl.store.committed = 0 :=
        rpcCommitted_notFound_committed w pl hpl hr
      cases hlc : (rpcCommitted w).w.loc.Committed with
      | error e =>
          rw [hlc] at hnf
          simp only at hnf ⊢
          by_cases h4 : e.statusCode = 404
          · rw [if_pos h4] at hnf ⊢
            have hl0 : (rpcCommitted w).w.loc.store.committed = 0 :=
              Log.Committed_404 (rpcCommitted w).w.loc e hlc h4
            exact ndSyncCommitted_ok (rpcCommitted w).w
              ((rpcCommitted w).t ++ [Ev.locEv .committedK .notFound]) 0 0 pl
              hplw (by rw [hlocw]; exact hlw) hpw hl0 hpc hnf
          · rw [if_neg h4] at hnf
            rw [List.all_eq_true] at hnf
            have hbad := hnf (Ev.locEv .committedK .fail) (by simp)
            simp [Ev.isFailEv, Ev.isLocFail] at hbad
      | ok q =>
          rw [hlc] at hnf
          simp only at hnf ⊢
          have hqv : q.version = (rpcCommitted w).w.loc.store.committed :=
            Log.Committed_ok_version _ q hlc
          exact ndSyncCommitted_ok (rpcCommitted w).w
            ((rpcCommitted w).t ++ [Ev.locEv .committedK .ok]) 0 q.version pl
            hplw (by rw [hlocw]; exact hlw) hpw hqv.symm hpc hnf
  | ok p =>
      rw [hr] at hnf
      simp only at hnf ⊢
      have hpc : pl.store.committed = p.version :=
        rpcCommitted_ok_committed w pl p hpl hr
      cases hlc : (rpcCommitted w).w.loc.Committed with
      | error e =>
          rw [hlc] at hnf
          simp only at hnf ⊢
          by_cases h4 : e.statusCode = 404
          · rw [if_pos h4] at hnf ⊢
            have hl0 : (rpcCommitted w).w.loc.store.committed = 0 :=
              Log.Committed_404 (rpcCommitted w).w.loc e hlc h4
            exact ndSyncCommitted_ok (rpcCommitted w).w
              ((rpcCommitted w).t ++ [Ev.locEv .committedK .notFound]) p.version 0 pl
              hplw (by rw [hlocw]; exact hlw) hpw hl0 hpc hnf
          · rw [if_neg h4] at hnf
            rw [List.all_eq_true] at hnf
            have hbad := hnf (Ev.locEv .committedK .fail) (by simp)
            simp [Ev.isFailEv, Ev.isLocFail] at hbad
      | ok q =>
          rw [hlc] at hnf
          simp only at hnf ⊢
          have hqv : q.version = (rpcCommitted w).w.loc.store.committed :=
            Log.Committed_ok_version _ q hlc
          exact ndSyncCommitted_ok (rpcCommitted w).w
            ((rpcCommitted w).t ++ [Ev.locEv .committedK .ok]) p.version q.version pl
            hplw (by rw [hlocw]; exact hlw) hpw hqv.symm hpc hnf

/-- The exact shape of the `ndFinish` trace. -/
theorem ndFinish_t_eq (w : World) (t : Trace) (b : Bool) :
    ∃ o, (ndFinish w t b).t = t ++ (w.loc.Commit).evs ++ [Ev.locEv .commitK o] := by
  unfold ndFinish
  simp only
  cases hc : (w.loc.Commit).err with
  | none => exact ⟨.ok, by simp⟩
  | some e => exact ⟨.fail, by simp⟩

/-- `Log.Commit` emits no peer RPC events. -/
theorem Log.Commit_evs_noRpcFail (l : Log) :
    ∀ e ∈ (l.Commit).evs, e.isRpcFail = false := by
  intro e he
  rcases Log.Commit_evs_shape l with h | ⟨v, op, h⟩
  · rw [h] at he
    simp at he
  · rw [h] at he
    simp at he
    subst he
    rfl

/-- Membership form of `ndFinish_res`. -/
theorem ndFinish_res_prop (w : World) (t : Trace) (b : Bool)
    (h : ∀ e ∈ (ndFinish w t b).t, e.isLocFail = false) :
    (ndFinish w t b).res = some ⟨b⟩ := by
  refine ndFinish_res w t b ?_
  rw [List.all_eq_true]
  intro e he
  simp [h e he]

/-- `ndFinish` adds no failed peer RPC event. -/
theorem ndFinish_noRpcFail (w : World) (t : Trace) (b : Bool)
    (htin : ∀ e ∈ t, e.isRpcFail = false) :
    ∀ e ∈ (ndFinish w t b).t, e.isRpcFail = false := by
  obtain ⟨o, ho⟩ := ndFinish_t_eq w t b
  rw [ho]
  intro e he
  simp at he
  rcases he with he | he | he
  · exact htin e he
  · exact Log.Commit_evs_noRpcFail w.loc e he
  · subst he
    rfl

/-- A completed push loop issued no failed peer RPC. -/
theorem pushLoop_ok_noRpcFail (fuel : Nat) (w : World) (i lcv : Nat)
    (h : (pushLoop fuel w i lcv).ok = true) :
    ∀ e ∈ (pushLoop fuel w i lcv).t, e.isRpcFail = false := by
  induction fuel generalizing w i with
  | zero =>
      intro e he
      simp [pushLoop] at he
  | succ fuel ih =>
      by_cases hi : i = lcv
      · intro e he
        unfold pushLoop at he
        rw [if_pos hi] at he
        simp at he
      · unfold pushLoop at h ⊢
        rw [if_neg hi] at h ⊢
        simp only at h ⊢
        cases hrec : w.loc.Record (i + 1) with
        | error e2 =>
            rw [hrec] at h
            simp at h
        | ok payload =>
            rw [hrec] at h
            simp only at h ⊢
            rcases rpcPrepare_cases w payload with ⟨hok, ht⟩ | ⟨hok, ht, pl1, hpl1, hpe, hw⟩
            · rw [hok] at h
              simp only [Bool.false_eq_true, if_false] at h
            · rw [hok] at h ⊢
              simp only [if_true] at h ⊢
              rcases rpcCommit_cases (rpcPrepare w payload).w with
                ⟨hok2, ht2⟩ | ⟨hok2, ht2, pl2, hpl2, hce, hw2⟩
              · rw [hok2] at h
                simp only [Bool.false_eq_true, if_false] at h
              · rw [hok2] at h ⊢
                simp only [if_true] at h ⊢
                intro e he
                rw [ht, ht2] at he
                simp at he
                rcases he with he | he | he | he
                · subst he; rfl
                · subst he; rfl
                · subst he; rfl
                · exact ih _ _ h e he

/-- A completed pull loop issued no failed peer RPC. -/
theorem pullLoop_ok_noRpcFail (fuel : Nat) (w : World) (i pcv : Nat)
    (h : (pullLoop fuel w i pcv).ok = true) :
    ∀ e ∈ (pullLoop fuel w i pcv).t, e.isRpcFail = false := by
  induction fuel generalizing w i with
  | zero =>
      intro e he
      simp [pullLoop] at he
  | succ fuel ih =>
      by_cases hi : i = pcv
      · intro e he
        unfold pullLoop at he
        rw [if_pos hi] at he
        simp at he
      · unfold pullLoop at h ⊢
        rw [if_neg hi] at h ⊢
        simp only at h ⊢
        rcases rpcGetRecord_cases w (i + 1) with
          ⟨hr, ht⟩ | ⟨q, hr, hv, ht, hwq, pl1, hpl1, hrec⟩
        · rw [hr] at h
          simp only at h
          simp at h
        · rw [hr] at h ⊢
          simp only at h ⊢
          rw [hwq] at h ⊢
          rw [World.dropFault_loc] at h ⊢
          cases hpe : (w.loc.Prepare q).err with
          | some e2 =>
              rw [hpe] at h
              simp only at h
              simp at h
          | none =>
              rw [hpe] at h
              simp only at h ⊢
              rw [Log.Prepare_ok_shape w.loc q hpe] at h ⊢
              rw [Log.Commit_after_prepare] at h ⊢
              simp only at h ⊢
              cases ha : w.loc.service.applyOk (w.loc.store.committed + 1) q.op with
              | false =>
                  rw [ha] at h
                  simp only [Bool.false_eq_true, if_false] at h
              | true =>
                  rw [ha] at h
                  simp only [eq_self_iff_true, if_true] at h ⊢
                  intro e he
                  rw [ht] at he
                  simp at he
                  rcases he with he | he | he | he | he
                  · subst he; rfl
                  · subst he; rfl
                  · subst he; rfl
                  · subst he; rfl
                  · exact ih _ _ h e he

/-- A failed pull loop shows a failed peer `GetRecord` or a failed local
operation in its trace. -/
theorem pullLoop_fail_reason (fuel : Nat) (w : World) (i pcv : Nat)
    (h : (pullLoop fuel w i pcv).ok = false) :
    ∃ e ∈ (pullLoop fuel w i pcv).t, e.isGetRecFail = true ∨ e.isLocFail = true := by
  induction fuel generalizing w i with
  | zero => simp [pullLoop] at h
  | succ fuel ih =>
      by_cases hi : i = pcv
      · unfold pullLoop at h
        rw [if_pos hi] at h
        simp at h
      · unfold pullLoop at h ⊢
        rw [if_neg hi] at h ⊢
        simp only at h ⊢
        rcases rpcGetRecord_cases w (i + 1) with
          ⟨hr, ht⟩ | ⟨q, hr, hv, ht, hwq, pl1, hpl1, hrec⟩
        · rw [hr] at h ⊢
          simp only at h ⊢
          rw [ht]
          exact ⟨Ev.rpcEv .getRecordK .fail, by simp, Or.inl rfl⟩
        · rw [hr] at h ⊢
          simp only at h ⊢
          rw [hwq] at h ⊢
          rw [World.dropFault_loc] at h ⊢
          cases hpe : (w.loc.Prepare q).err with
          | some e2 =>
              rw [hpe] at h
              simp only at h ⊢
              exact ⟨Ev.locEv .prepareK .fail, by simp, Or.inr rfl⟩
          | none =>
              rw [hpe] at h
              simp only at h ⊢
              rw [Log.Prepare_ok_shape w.loc q hpe] at h ⊢
              rw [Log.Commit_after_prepare] at h ⊢
              simp only at h ⊢
              cases ha : w.loc.service.applyOk (w.loc.store.committed + 1) q.op with
              | false =>
                  rw [ha] at h
                  simp only [Bool.false_eq_true, if_false] at h ⊢
                  exact ⟨Ev.locEv .commitK .fail, by simp, Or.inr rfl⟩
              | true =>
                  rw [ha] at h
                  simp only [eq_self_iff_true, if_true] at h ⊢
                  obtain ⟨e, he, hor⟩ := ih _ _ h
                  exact ⟨e, by simp [he], hor⟩

/-- The rollback step on the skip path: with no local failure and some
failed peer RPC in the resulting trace (none in the input trace), the
result is a successful startup with `peerInSync = false`. -/
theorem ndRollbackBoth_skip (w : World) (t : Trace) (lpv ppv : Nat)
    (htin : ∀ e ∈ t, e.isRpcFail = false)
    (hnoloc : ∀ e ∈ (ndRollbackBoth w t lpv ppv).t, e.isLocFail = false)
    (hfail : ∃ e ∈ (ndRollbackBoth w t lpv ppv).t, e.isRpcFail = true) :
    (ndRollbackBoth w t lpv ppv).res = some ⟨false⟩ := by
  unfold ndRollbackBoth at hnoloc hfail ⊢
  by_cases hg : 0 < lpv ∨ 0 < ppv
  · rw [if_pos hg] at hnoloc hfail ⊢
    simp only at hnoloc hfail ⊢
    rcases rpcRollback_cases ({ w with loc := (w.loc.Rollback).log }) with
      ⟨hok, ht⟩ | ⟨hok, ht, pl1, hpl1, hw1⟩
    · rw [hok] at hnoloc hfail ⊢
      simp only [Bool.false_eq_true, if_false] at hnoloc hfail ⊢
      exact ndFinish_res_prop _ _ false hnoloc
    · rw [hok] at hnoloc hfail ⊢
      simp only [if_true] at hnoloc hfail ⊢
      exfalso
      obtain ⟨e, he, hrf⟩ := hfail
      have h2 : ∀ e2 ∈ ((t ++ [Ev.locEv LocKind.rollbackK Outcome.ok]) ++
          (rpcRollback { w with loc := (w.loc.Rollback).log }).t), e2.isRpcFail = false := by
        intro e2 he2
        rw [ht] at he2
        simp at he2
        rcases he2 with he2 | he2 | he2
        · exact htin e2 he2
        · subst he2; rfl
        · subst he2; rfl
      have h3 := ndFinish_noRpcFail _ _ true h2 e he
      exact absurd hrf (by simp [h3])
  · rw [if_neg hg] at hnoloc hfail ⊢
    exfalso
    obtain ⟨e, he, hrf⟩ := hfail
    have h3 := ndFinish_noRpcFail w t true htin e he
    exact absurd hrf (by simp [h3])

/-- The prepared-record check on the skip path. -/
theorem ndCheckPrepared_skip (w : World) (t : Trace)
    (htin : ∀ e ∈ t, e.isRpcFail = false)
    (hnoloc : ∀ e ∈ (ndCheckPrepared w t).t, e.isLocFail = false)
    (hfail : ∃ e ∈ (ndCheckPrepared w t).t, e.isRpcFail = true) :
    (ndCheckPrepared w t).res = some ⟨false⟩ := by
  unfold ndCheckPrepared at hnoloc hfail ⊢
  simp only at hnoloc hfail ⊢
  cases hr : (rpcPrepared w).r with
  | fail =>
      rw [hr] at hnoloc hfail
      simp only at hnoloc hfail ⊢
      exact ndFinish_res_prop _ _ false hnoloc
  | notFound =>
      rw [hr] at hnoloc hfail
      simp only at hnoloc hfail ⊢
      have hT : (rpcPrepared w).t = [Ev.rpcEv .preparedK .notFound] := by
        rw [rpcPrepared_t, hr]
        rfl
      cases hlp : (rpcPrepared w).w.loc.Prepared with
      | error e =>
          rw [hlp] at hnoloc hfail
          simp only at hnoloc hfail ⊢
          by_cases h4 : e.statusCode = 404
          · rw [if_pos h4] at hnoloc hfail ⊢
            refine ndRollbackBoth_skip _ _ 0 _ ?_ hnoloc hfail
            intro e2 he2
            rw [hT] at he2
            simp at he2
            rcases he2 with he2 | he2 | he2
            · exact htin e2 he2
            · subst he2; rfl
            · subst he2; rfl
          · rw [if_neg h4] at hnoloc
            have := hnoloc (Ev.locEv .preparedK .fail) (by simp)
            simp [Ev.isLocFail] at this
      | ok p2 =>
          rw [hlp] at hnoloc hfail
          simp only at hnoloc hfail ⊢
          refine ndRollbackBoth_skip _ _ p2.version _ ?_ hnoloc hfail
          intro e2 he2
          rw [hT] at he2
          simp at he2
          rcases he2 with he2 | he2 | he2
          · exact htin e2 he2
          · subst he2; rfl
          · subst he2; rfl
  | ok p =>
      rw [hr] at hnoloc hfail
      simp only at hnoloc hfail ⊢
      have hT : (rpcPrepared w).t = [Ev.rpcEv .preparedK .ok] := by
        rw [rpcPrepared_t, hr]
        rfl
      cases hlp : (rpcPrepared w).w.loc.Prepared with
      | error e =>
          rw [hlp] at hnoloc hfail
          simp only at hnoloc hfail ⊢
          by_cases h4 : e.statusCode = 404
          · rw [if_pos h4] at hnoloc hfail ⊢
            refine ndRollbackBoth_skip _ _ 0 _ ?_ hnoloc hfail
            intro e2 he2
            rw [hT] at he2
            simp at he2
            rcases he2 with he2 | he2 | he2
            · exact htin e2 he2
            · subst he2; rfl
            · subst he2; rfl
          · rw [if_neg h4] at hnoloc
            have := hnoloc (Ev.locEv .preparedK .fail) (by simp)
            simp [Ev.isLocFail] at this
      | ok p2 =>
          rw [hlp] at hnoloc hfail
          simp only at hnoloc hfail ⊢
          refine ndRollbackBoth_skip _ _ p2.version _ ?_ hnoloc hfail
          intro e2 he2
          rw [hT] at he2
          simp at he2
          rcases he2 with he2 | he2 | he2
          · exact htin e2 he2
          · subst he2; rfl
          · subst he2; rfl

/-- The committed-version reconciliation on the skip path. -/
theorem ndSyncCommitted_skip (w : World) (t : Trace) (pcv lcv : Nat)
    (htin : ∀ e ∈ t, e.isRpcFail = false)
    (hnoloc : ∀ e ∈ (ndSyncCommitted w t pcv lcv).t, e.isLocFail = false)
    (hnogr : ∀ e ∈ (ndSyncCommitted w t pcv lcv).t, e.isGetRecFail = false)
    (hfail : ∃ e ∈ (ndSyncCommitted w t pcv lcv).t, e.isRpcFail = true) :
    (ndSyncCommitted w t pcv lcv).res = some ⟨false⟩ := by
  unfold ndSyncCommitted at hnoloc hnogr hfail ⊢
  by_cases hle : pcv ≤ lcv
  · rw [if_pos hle] at hnoloc hnogr hfail ⊢
    simp only at hnoloc hnogr hfail ⊢
    cases hok : (pushLoop (lcv - pcv) w pcv lcv).ok
    · rw [hok] at hnoloc hfail
      simp only [Bool.false_eq_true, if_false] at hnoloc hfail ⊢
      exact ndFinish_res_prop _ _ false hnoloc
    · rw [hok] at hnoloc hfail
      simp only [if_true] at hnoloc hfail ⊢
      refine ndCheckPrepared_skip _ _ ?_ hnoloc hfail
      intro e he
      rcases List.mem_append.mp he with he | he
      · exact htin e he
      · exact pushLoop_ok_noRpcFail (lcv - pcv) w pcv lcv hok e he
  · rw [if_neg hle] at hnoloc hnogr hfail ⊢
    simp only at hnoloc hnogr hfail ⊢
    cases hok : (pullLoop (pcv - lcv) { w with loc := (w.loc.Rollback).log } lcv pcv).ok
    · rw [hok] at hnoloc hnogr hfail
      simp only [Bool.false_eq_true, if_false] at hnoloc hnogr hfail ⊢
      exfalso
      obtain ⟨e, he, hor⟩ :=
        pullLoop_fail_reason (pcv - lcv) { w with loc := (w.loc.Rollback).log } lcv pcv hok
      have hmem : e ∈ ((t ++ [Ev.locEv LocKind.rollbackK Outcome.ok]) ++
          (pullLoop (pcv - lcv) { w with loc := (w.loc.Rollback).log } lcv pcv).t) := by
        simp [he]
      rcases hor with h1 | h1
      · exact absurd (hnogr e hmem) (by simp [h1])
      · exact absurd (hnoloc e hmem) (by simp [h1])
    · rw [hok] at hnoloc hfail
      simp only [if_true] at hnoloc hfail ⊢
      refine ndCheckPrepared_skip _ _ ?_ hnoloc hfail
      intro e he
      simp only [List.mem_append, List.mem_singleton] at he
      rcases he with (he | he) | he
      · exact htin e he
      · subst he; rfl
      · exact pullLoop_ok_noRpcFail (pcv - lcv) _ lcv pcv hok e he

/-- `NewDoer` on the skip path: any failed peer RPC, with all local
commit-log operations and all peer `GetRecord` calls succeeding, still
yields a successful startup, with `peerInSync = false`. -/
theorem NewDoer_run_skip (w : World) (pl : Log)
    (hpl : w.peerLog = some pl)
    (hnoloc : ∀ e ∈ (NewDoer w).t, e.isLocFail = false)
    (hnogr : ∀ e ∈ (NewDoer w).t, e.isGetRecFail = false)
    (hfail : ∃ e ∈ (NewDoer w).t, e.isRpcFail = true) :
    (NewDoer w).res = some ⟨false⟩ := by
  unfold NewDoer at hnoloc hnogr hfail ⊢
  rw [hpl] at hnoloc hnogr hfail ⊢
  simp only at hnoloc hnogr hfail ⊢
  cases hr : (rpcCommitted w).r with
  | fail =>
      rw [hr] at hnoloc hfail
      simp only at hnoloc hfail ⊢
      exact ndFinish_res_prop _ _ false hnoloc
  | notFound =>
      rw [hr] at hnoloc hnogr hfail
      simp only at hnoloc hnogr hfail ⊢
      have hT : (rpcCommitted w).t = [Ev.rpcEv .committedK .notFound] := by
        rw [rpcCommitted_t, hr]
        rfl
      cases hlc : (rpcCommitted w).w.loc.Committed with
      | error e =>
          rw [hlc] at hnoloc hnogr hfail
          simp only at hnoloc hnogr hfail ⊢
          by_cases h4 : e.statusCode = 404
          · rw [if_pos h4] at hnoloc hnogr hfail ⊢
            refine ndSyncCommitted_skip _ _ _ 0 ?_ hnoloc hnogr hfail
            intro e2 he2
            rw [hT] at he2
            simp at he2
            rcases he2 with he2 | he2
            · subst he2; rfl
            · subst he2; rfl
          · rw [if_neg h4] at hnoloc
            have := hnoloc (Ev.locEv .committedK .fail) (by simp)
            simp [Ev.isLocFail] at this
      | ok q =>
          rw [hlc] at hnoloc hnogr hfail
          simp only at hnoloc hnogr hfail ⊢
          refine ndSyncCommitted_skip _ _ _ q.version ?_ hnoloc hnogr hfail
          intro e2 he2
          rw [hT] at he2
          simp at he2
          rcases he2 with he2 | he2
          · subst he2; rfl
          · subst he2; rfl
  | ok p =>
      rw [hr] at hnoloc hnogr hfail
      simp only at hnoloc hnogr hfail ⊢
      have hT : (rpcCommitted w).t = [Ev.rpcEv .committedK .ok] := by
        rw [rpcCommitted_t, hr]
        rfl
      cases hlc : (rpcCommitted w).w.loc.Committed with
      | error e =>
          rw [hlc] at hnoloc hnogr hfail
          simp only at hnoloc hnogr hfail ⊢
          by_cases h4 : e.statusCode = 404
          · rw [if_pos h4] at hnoloc hnogr hfail ⊢
            refine ndSyncCommitted_skip _ _ _ 0 ?_ hnoloc hnogr hfail
            intro e2 he2
            rw [hT] at he2
            simp at he2
            rcases he2 with he2 | he2
            · subst he2; rfl
            · subst he2; rfl
          · rw [if_neg h4] at hnoloc
            have := hnoloc (Ev.locEv .committedK .fail) (by simp)
            simp [Ev.isLocFail] at this
      | ok q =>
          rw [hlc] at hnoloc hnogr hfail
          simp only at hnoloc hnogr hfail ⊢
          refine ndSyncCommitted_skip _ _ _ q.version ?_ hnoloc hnogr hfail
          intro e2 he2
          rw [hT] at he2
          simp at he2
          rcases he2 with he2 | he2
          · subst he2; rfl
          · subst he2; rfl

/-! ## Claim C3 -/

/-- Claim C3 (corrected): with a peer configured, (a) when every operation
of the startup reconciliation succeeds — every peer RPC, and also every
local commit-log operation, which the claim as stated omits — and both
stores satisfy the prepared-version invariant, `NewDoer` returns
successfully with `peerInSync = true`, the local committed version equal to
the peer's, and no outstanding prepared record on either side; (b) when
some peer RPC fails while every local commit-log operation and every peer
`GetRecord` succeeds, `NewDoer` still returns successfully with
`peerInSync = false`.  The claim as stated (hypothesis on the peer RPCs
only) is refuted by `claim3_counterexample`. -/
theorem claim3_newdoer_reconciliation :
    (∀ w pl, w.peerLog = some pl → w.loc.store.wf = true → pl.store.wf = true →
      ((NewDoer w).t.all (fun e => !e.isFailEv)) = true →
      ∃ pl2, (NewDoer w).w.peerLog = some pl2 ∧
        (NewDoer w).res = some ⟨true⟩ ∧
        (NewDoer w).w.loc.store.committed = pl2.store.committed ∧
        (NewDoer w).w.loc.store.prepared = none ∧
        pl2.store.prepared = none) ∧
    (∀ w pl, w.peerLog = some pl →
      (∀ e ∈ (NewDoer w).t, e.isLocFail = false) →
      (∀ e ∈ (NewDoer w).t, e.isGetRecFail = false) →
      (∃ e ∈ (NewDoer w).t, e.isRpcFail = true) →
      (NewDoer w).res = some ⟨false⟩) :=
  ⟨NewDoer_run_ok, NewDoer_run_skip⟩

/-- Counterexample to Claim C3 as stated: on `staleRecordWorld` (local
committed version 3 whose records 1 and 2 were compacted away, peer
committed version 1, no network faults) every peer RPC of the
reconciliation succeeds, yet `NewDoer` returns `peerInSync = false` and
leaves the committed versions unequal (3 locally, 1 on the peer): the
failing step is the local `Record(2)` fetch of the peer-behind push, which
the claim's hypothesis does not cover. -/
theorem claim3_counterexample :
    ((NewDoer staleRecordWorld).t.all (fun e => !e.isRpcFail)) = true ∧
    (NewDoer staleRecordWorld).res = some ⟨false⟩ ∧
    (NewDoer staleRecordWorld).w.loc.store.committed = 3 ∧
    (NewDoer staleRecordWorld).w.peerLog.map (fun pl2 => pl2.store.committed) = some 1 := by
  decide

/-- Witness for C3: part (a) at `peerBehindWorld` (peer one version behind,
no faults — reconciliation pushes version 2 and ends in sync) and part (b)
at `faultyPeerWorld` (a network fault on the first peer RPC — startup
succeeds out of sync). -/
theorem claim3_witness :
    (∃ pl2, (NewDoer peerBehindWorld).w.peerLog = some pl2 ∧
      (NewDoer peerBehindWorld).res = some ⟨true⟩ ∧
      (NewDoer peerBehindWorld).w.loc.store.committed = pl2.store.committed ∧
      (NewDoer peerBehindWorld).w.loc.store.prepared = none ∧
      pl2.store.prepared = none) ∧
    (NewDoer faultyPeerWorld).res = some ⟨false⟩ :=
  ⟨claim3_newdoer_reconciliation.1 peerBehindWorld ⟨svcAll, true, ⟨[(1, opA)], 1, none⟩⟩
      rfl (by decide) (by decide) (by decide),
   claim3_newdoer_reconciliation.2 faultyPeerWorld ⟨svcAll, true, ⟨[(1, opA)], 1, none⟩⟩
      rfl (by decide) (by decide) (by decide)⟩
